import Mathlib

/-!
Verification of the loudness-measurement core of the compare-tracks
repository.

Embedding conventions:
* JavaScript numbers that the algorithms combine with exact field
  arithmetic (samples, energies, gains, thresholds) are embedded as `ℚ`.
  Sample containers (`Float32Array`) become `List ℚ`.
* `Math.log10` is transcendental, so the whole loudness core is
  parameterised by a function `log10 : ℚ → ℚ`; every theorem below is
  proved for an arbitrary such parameter, and the real logarithm is one
  instance.  `Number.NEGATIVE_INFINITY`, which the code produces only as
  the loudness of a non-positive mean square, is embedded as `none` in
  `Option ℚ`, with the comparison operators of the source mapped to
  `lufsGtB` / `lufsGeB` (a finite bound is never exceeded by `-∞`).
* Loop counters (`blockSize`, `stepSize`, `totalSamples`,
  `originalLength`) are embedded as `ℕ`; the block loop of the source
  terminates exactly when `stepSize ≥ 1`, which the call site guarantees
  via `Math.max(1, Math.round(...))`.
* Out-of-range indexed reads `data[i] ?? 0` become `List.getD i 0`, and
  missing channel weights `channelWeights[channel] ?? 1` become
  `List.getD channel 1`.
* For the loudness-matching calculator, whose cited claims distinguish
  finite from non-finite values, JavaScript numbers are embedded as the
  inductive `JSNum` with explicit `NaN` and `±Infinity` and the exact
  JavaScript semantics of `-`, `Math.min` and `Math.max` on them.
-/

/-- Result record of `loudnessTypes.ts`: `lufsIntegrated` and `peakDb`,
both nullable. -/
structure LoudnessMetrics where
  lufsIntegrated : Option ℚ
  peakDb : Option ℚ
deriving DecidableEq, Repr

/-- Payload of `loudnessCore.ts` (`LoudnessWorkerPayload`). -/
structure LoudnessWorkerPayload where
  weightedChannels : List (List ℚ)
  originalChannels : List (List ℚ)
  channelWeights : List ℚ
  blockSize : ℕ
  stepSize : ℕ
  totalSamples : ℕ
  originalLength : ℕ
  absoluteGate : ℚ
  relativeGateOffset : ℚ
  lufsOffset : ℚ
deriving DecidableEq, Repr

/-- `toLUFS` of `loudnessCore.ts`: a non-positive mean square maps to
`Number.NEGATIVE_INFINITY` (here `none`), otherwise to
`lufsOffset + 10 * Math.log10(meanSquare)`. -/
def toLUFS (log10 : ℚ → ℚ) (meanSquare lufsOffset : ℚ) : Option ℚ :=
  if meanSquare ≤ 0 then none
  else some (lufsOffset + 10 * log10 meanSquare)

/-- `integrateBlocks` of `loudnessCore.ts`: `null` on an empty list or a
non-positive average energy, otherwise `lufsOffset + 10 * log10(mean)`. -/
def integrateBlocks (log10 : ℚ → ℚ) (meanSquares : List ℚ) (lufsOffset : ℚ) :
    Option ℚ :=
  if meanSquares.isEmpty then none
  else
    let energy := meanSquares.sum / (meanSquares.length : ℚ)
    if energy ≤ 0 then none
    else some (lufsOffset + 10 * log10 energy)

/-- JavaScript `x > g` for an instantaneous loudness `x` that may be
`-∞` (`none`) and a finite bound `g`. -/
def lufsGtB : Option ℚ → ℚ → Bool
  | none, _ => false
  | some x, g => decide (g < x)

/-- JavaScript `x >= t` for an instantaneous loudness `x` that may be
`-∞` (`none`) and a finite threshold `t`. -/
def lufsGeB : Option ℚ → ℚ → Bool
  | none, _ => false
  | some x, t => decide (t ≤ x)

/-- Inner loop of the block scan of `computeLoudnessMetrics`: the
accumulated `channelEnergy`, a sum of squared samples
`data[blockStart + i] ?? 0` for `i < len`. -/
def channelEnergy (data : List ℚ) (blockStart len : ℕ) : ℚ :=
  ((List.range len).map
    (fun i => data.getD (blockStart + i) 0 * data.getD (blockStart + i) 0)).sum

/-- One block's `blockEnergy`/`meanSquare` of `computeLoudnessMetrics`:
the channel-weight-weighted sum of per-channel mean squares, the weight
defaulting to `1` (`channelWeights[channel] ?? 1`). -/
def blockMeanSquare (weightedChannels : List (List ℚ)) (channelWeights : List ℚ)
    (blockStart len : ℕ) : ℚ :=
  ((List.range weightedChannels.length).map
    (fun channel =>
      channelWeights.getD channel 1 *
        (channelEnergy (weightedChannels.getD channel []) blockStart len / (len : ℚ)))).sum

/-- Block starts visited by
`for (blockStart = 0; blockStart < totalSamples; blockStart += stepSize)`:
the multiples `k * stepSize` with `k < ⌈totalSamples / stepSize⌉`.  The
loop terminates exactly when `stepSize ≥ 1`; for `stepSize = 0` this
embedding returns `[]` where the source would not return at all. -/
def blockStarts (totalSamples stepSize : ℕ) : List ℕ :=
  (List.range ((totalSamples + stepSize - 1) / stepSize)).map (· * stepSize)

/-- The parallel arrays `meanSquares` / `lufsPerBlock` of
`computeLoudnessMetrics`, as a list of pairs.  A block with
`actualBlockSize ≤ 0` (only possible when `blockSize = 0`) is skipped by
`continue`. -/
def codeBlocks (log10 : ℚ → ℚ) (p : LoudnessWorkerPayload) :
    List (ℚ × Option ℚ) :=
  (blockStarts p.totalSamples p.stepSize).filterMap
    (fun blockStart =>
      let len := min p.blockSize (p.totalSamples - blockStart)
      if len = 0 then none
      else
        let ms := blockMeanSquare p.weightedChannels p.channelWeights blockStart len
        some (ms, toLUFS log10 ms p.lufsOffset))

/-- The arrays `aboveAbsoluteGate` / `aboveAbsoluteGateLufs`: blocks whose
instantaneous loudness is strictly above `absoluteGate`. -/
def gatedBlocks (log10 : ℚ → ℚ) (p : LoudnessWorkerPayload) :
    List (ℚ × Option ℚ) :=
  (codeBlocks log10 p).filter (fun b => lufsGtB b.2 p.absoluteGate)

/-- `preliminaryLufs` of `computeLoudnessMetrics`: `integrateBlocks` over
the absolutely gated mean squares. -/
def preliminaryLoudness (log10 : ℚ → ℚ) (p : LoudnessWorkerPayload) : Option ℚ :=
  integrateBlocks log10 ((gatedBlocks log10 p).map (·.1)) p.lufsOffset

/-- The array `aboveRelativeGate`: absolutely gated blocks with
instantaneous loudness at least `preliminaryLufs - relativeGateOffset`
(empty when the preliminary loudness is `null`, in which case the source
has already returned). -/
def relGatedBlocks (log10 : ℚ → ℚ) (p : LoudnessWorkerPayload) :
    List (ℚ × Option ℚ) :=
  match preliminaryLoudness log10 p with
  | none => []
  | some preliminary =>
      (gatedBlocks log10 p).filter
        (fun b => lufsGeB b.2 (preliminary - p.relativeGateOffset))

/-- The `absolutePeak` scan of `computeLoudnessMetrics`: the running
maximum of `Math.abs(data[i] ?? 0)` over `i < originalLength` for every
original channel, starting from `0`. -/
def peakScan (channels : List (List ℚ)) (len : ℕ) : ℚ :=
  channels.foldl
    (fun acc data =>
      (List.range len).foldl (fun a i => max a |data.getD i 0|) acc)
    0

/-- `computeLoudnessMetrics` of `loudnessCore.ts`. -/
def computeLoudnessMetrics (log10 : ℚ → ℚ) (p : LoudnessWorkerPayload) :
    LoudnessMetrics :=
  if p.weightedChannels.isEmpty ∨ p.originalChannels.isEmpty then ⟨none, none⟩
  else
    let absolutePeak := peakScan p.originalChannels p.originalLength
    let peakDb : Option ℚ :=
      if 0 < absolutePeak then some (min (20 * log10 absolutePeak) 0) else none
    if (codeBlocks log10 p).isEmpty then ⟨none, peakDb⟩
    else if (gatedBlocks log10 p).isEmpty then ⟨none, peakDb⟩
    else
      match preliminaryLoudness log10 p with
      | none => ⟨none, peakDb⟩
      | some preliminary =>
          let relGated :=
            (gatedBlocks log10 p).filter
              (fun b => lufsGeB b.2 (preliminary - p.relativeGateOffset))
          ⟨integrateBlocks log10
              ((if relGated.isEmpty then gatedBlocks log10 p else relGated).map (·.1))
              p.lufsOffset,
            peakDb⟩

/-- `computeSamplePeakDb` of `audioAnalysis.ts`: the native-rate sample
peak scan over an `AudioBuffer`, embedded as its list of channel-data
lists (each channel of an `AudioBuffer` has exactly `buffer.length`
samples, so the `i < buffer.length` loop reads each channel in full). -/
def computeSamplePeakDb (log10 : ℚ → ℚ) (channels : List (List ℚ)) : Option ℚ :=
  let peak := channels.foldl (fun acc data => data.foldl (fun a x => max a |x|) acc) 0
  if 0 < peak then some (min (20 * log10 peak) 0) else none

/-! ### Reference algorithm of the specification (for claim C1)

The following `spec…` definitions are transcribed from the
specification's description of the block-energy integrator, not from the
source, and are compared with the source embedding above. -/

/-- Transcribed from the specification text: block starts are the multiples of the step
size below the total sample count. -/
def specBlockStarts (totalSamples stepSize : ℕ) : List ℕ :=
  (List.range totalSamples).filter (fun n => n % stepSize = 0)

/-- Transcribed from the specification text: the per-channel mean-square energy of a block,
the mean of the squared samples over the actual block length. -/
def specChannelMeanSquare (data : List ℚ) (blockStart len : ℕ) : ℚ :=
  (((List.range len).map (fun i => data.getD (blockStart + i) 0 ^ 2)).sum) / (len : ℚ)

/-- Transcribed from the specification text: channels are combined as the
channel-weight-weighted sum of per-channel mean squares. -/
def specBlockMeanSquare (weightedChannels : List (List ℚ)) (channelWeights : List ℚ)
    (blockStart len : ℕ) : ℚ :=
  ((List.range weightedChannels.length).map
    (fun channel =>
      channelWeights.getD channel 1 *
        specChannelMeanSquare (weightedChannels.getD channel []) blockStart len)).sum

/-- Transcribed from the specification text: for each block start, the pair of the block's
mean square, taken over `min(blockSize, remaining samples)` samples, and
its instantaneous loudness `lufsOffset + 10·log10(meanSquare)`, with
`meanSquare ≤ 0` treated as negative infinity. -/
def specBlocks (log10 : ℚ → ℚ) (p : LoudnessWorkerPayload) : List (ℚ × Option ℚ) :=
  (specBlockStarts p.totalSamples p.stepSize).map
    (fun blockStart =>
      let len := min p.blockSize (p.totalSamples - blockStart)
      let ms := specBlockMeanSquare p.weightedChannels p.channelWeights blockStart len
      (ms, if ms ≤ 0 then none else some (p.lufsOffset + 10 * log10 ms)))

/-- Transcribed from the specification text: the absolute gate keeps blocks whose
instantaneous loudness is strictly above the absolute gate. -/
def specAbsGated (log10 : ℚ → ℚ) (p : LoudnessWorkerPayload) : List (ℚ × Option ℚ) :=
  (specBlocks log10 p).filter (fun b => lufsGtB b.2 p.absoluteGate)

/-- Transcribed from the specification text: the preliminary loudness is
`lufsOffset + 10·log10` of the mean of the kept mean squares. -/
def specPreliminary (log10 : ℚ → ℚ) (p : LoudnessWorkerPayload) : ℚ :=
  p.lufsOffset +
    10 * log10 (((specAbsGated log10 p).map (·.1)).sum /
      (((specAbsGated log10 p).map (·.1)).length : ℚ))

/-- Transcribed from the specification text: the relative gate keeps absolutely gated
blocks with instantaneous loudness at least the preliminary loudness
minus the relative gate offset. -/
def specRelGated (log10 : ℚ → ℚ) (p : LoudnessWorkerPayload) : List (ℚ × Option ℚ) :=
  (specAbsGated log10 p).filter
    (fun b => lufsGeB b.2 (specPreliminary log10 p - p.relativeGateOffset))

/-! ### Worker boundary (`audioAnalysis.ts`, `loudnessWorker.ts`) -/

/-- `SerializedWorkerPayload` of `audioAnalysis.ts`: channel data moved
into transferable `ArrayBuffer`s.  An `ArrayBuffer` of a `Float32Array`
is embedded as the list of its float values. -/
structure SerializedWorkerPayload where
  weightedBuffers : List (List ℚ)
  originalBuffers : List (List ℚ)
  channelWeights : List ℚ
  blockSize : ℕ
  stepSize : ℕ
  totalSamples : ℕ
  originalLength : ℕ
  absoluteGate : ℚ
  relativeGateOffset : ℚ
  lufsOffset : ℚ
deriving DecidableEq, Repr

/-- The worker response / `WorkerResultMessage` schema:
`{type:"result", id, result}` or `{type:"error", id, error}`. -/
inductive WorkerResultMessage where
  | result (id : ℕ) (result : LoudnessMetrics)
  | error (id : ℕ) (error : String)
deriving DecidableEq, Repr

/-- `serializeForWorker` of `audioAnalysis.ts`: each `Float32Array`
channel contributes its underlying buffer, and `channelWeights` is
copied with `slice()`. -/
def serializeForWorker (p : LoudnessWorkerPayload) : SerializedWorkerPayload :=
  { weightedBuffers := p.weightedChannels
    originalBuffers := p.originalChannels
    channelWeights := p.channelWeights
    blockSize := p.blockSize
    stepSize := p.stepSize
    totalSamples := p.totalSamples
    originalLength := p.originalLength
    absoluteGate := p.absoluteGate
    relativeGateOffset := p.relativeGateOffset
    lufsOffset := p.lufsOffset }

/-- The payload reconstruction inside `handleAnalyze` of
`loudnessWorker.ts`: `new Float32Array(buffer)` views each transferred
buffer again as a channel. -/
def deserializePayload (s : SerializedWorkerPayload) : LoudnessWorkerPayload :=
  { weightedChannels := s.weightedBuffers
    originalChannels := s.originalBuffers
    channelWeights := s.channelWeights
    blockSize := s.blockSize
    stepSize := s.stepSize
    totalSamples := s.totalSamples
    originalLength := s.originalLength
    absoluteGate := s.absoluteGate
    relativeGateOffset := s.relativeGateOffset
    lufsOffset := s.lufsOffset }

/-- `handleAnalyze` of `loudnessWorker.ts`: deserialize the buffers, run
`computeLoudnessMetrics`, and answer with a result message carrying the
dispatch id. -/
def handleAnalyze (log10 : ℚ → ℚ) (id : ℕ) (payload : SerializedWorkerPayload) :
    WorkerResultMessage :=
  .result id (computeLoudnessMetrics log10 (deserializePayload payload))

/-- Offload-manager state of `audioAnalysis.ts`: whether the lazily
created worker handle exists (`loudnessWorker !== null`), the ids in the
`pendingWorkerRequests` map, and the `workerMessageId` counter. -/
structure OffloadState where
  workerAlive : Bool
  pending : List ℕ
  nextId : ℕ
deriving DecidableEq, Repr

/-- Observable completion effects: a pending request's `resolve` or
`reject` being invoked. -/
inductive WorkerEffect where
  | resolved (id : ℕ) (result : LoudnessMetrics)
  | rejected (id : ℕ) (error : String)
deriving DecidableEq, Repr

/-- `handleWorkerMessage` of `audioAnalysis.ts`: look up the pending
entry by the message id (ignoring unmatched ids), remove it, and resolve
it for a result message or reject it with the error message otherwise. -/
def handleWorkerMessage (s : OffloadState) (m : WorkerResultMessage) :
    OffloadState × List WorkerEffect :=
  match m with
  | .result id r =>
      if id ∈ s.pending then ({ s with pending := s.pending.erase id }, [.resolved id r])
      else (s, [])
  | .error id e =>
      if id ∈ s.pending then ({ s with pending := s.pending.erase id }, [.rejected id e])
      else (s, [])

/-- `handleWorkerError` of `audioAnalysis.ts`: a boundary-level runtime
error rejects every pending request, clears the table, and tears the
worker down. -/
def handleWorkerError (s : OffloadState) (e : String) :
    OffloadState × List WorkerEffect :=
  ({ workerAlive := false, pending := [], nextId := s.nextId },
    s.pending.map (fun id => .rejected id e))

/-- `ensureWorker` of `audioAnalysis.ts`: reuse the live worker handle,
otherwise create one lazily; `workerSupported` stands for a
worker-capable environment in which construction succeeds. -/
def ensureWorker (workerSupported : Bool) (s : OffloadState) : OffloadState × Bool :=
  if !workerSupported then (s, false)
  else if s.workerAlive then (s, true)
  else ({ s with workerAlive := true }, true)

/-- `postToWorker` of `audioAnalysis.ts`: take `workerMessageId` as the
correlation id, advance the counter, and register the pending entry. -/
def postToWorker (s : OffloadState) : OffloadState × ℕ :=
  ({ s with pending := s.pending ++ [s.nextId], nextId := s.nextId + 1 }, s.nextId)

/-- The `catch` block of `analyzeWithWorker` in `audioAnalysis.ts`: the
promise registered by `postToWorker` is awaited inside a `try`, so when
it rejects — which is exactly what a per-call `{type:"error"}` response
makes `handleWorkerMessage` do — the catch runs
`rejectAllPending(error)` over every still-pending request and then
`teardownWorker()`, discarding the worker handle. -/
def analyzeWithWorkerCatch (s : OffloadState) (e : String) :
    OffloadState × List WorkerEffect :=
  ({ workerAlive := false, pending := [], nextId := s.nextId },
    s.pending.map (fun id => .rejected id e))

/-- The complete main-thread reaction to a per-call error response for a
dispatched id: `handleWorkerMessage` rejects the matching pending
request, and the `analyzeWithWorker` call awaiting that very promise
then catches the rejection and runs its `rejectAllPending` plus
`teardownWorker`.  An unmatched id rejects nothing, so no catch runs. -/
def perCallErrorFlow (s : OffloadState) (i : ℕ) (e : String) :
    OffloadState × List WorkerEffect :=
  if i ∈ s.pending then
    let step1 := handleWorkerMessage s (.error i e)
    let step2 := analyzeWithWorkerCatch step1.1 e
    (step2.1, step1.2 ++ step2.2)
  else (s, [])

/-! ### K-weighting coefficients (`audioAnalysis.ts`)

The source stores the coefficients in `Float32Array`s.  A JavaScript
number literal denotes the nearest IEEE-754 binary64 value, and storing
it into a `Float32Array` rounds again to binary32, so the embedding
models both roundings (round to nearest, ties to even; every value here
is far inside the normal range of both formats, so overflow and
subnormals never arise). -/

/-- Round half to even to an integer, the IEEE-754 default tie rule. -/
def roundHalfEven (q : ℚ) : ℤ :=
  if q - ⌊q⌋ < 1 / 2 then ⌊q⌋
  else if 1 / 2 < q - ⌊q⌋ then ⌊q⌋ + 1
  else if ⌊q⌋ % 2 = 0 then ⌊q⌋ else ⌊q⌋ + 1

/-- The binary exponent of a positive rational: the `e` with
`2 ^ e ≤ q < 2 ^ (e + 1)`. -/
def binExp (q : ℚ) : ℤ :=
  if 1 ≤ q then (Nat.log2 ⌊q⌋.toNat : ℤ)
  else if 1 / q = 2 ^ (Nat.log2 ⌊1 / q⌋.toNat : ℤ) then
    -(Nat.log2 ⌊1 / q⌋.toNat : ℤ)
  else -(Nat.log2 ⌊1 / q⌋.toNat : ℤ) - 1

/-- Round a rational to the nearest binary floating-point value with
`prec` significand bits, ties to even: scale the magnitude so that the
significand spans `prec` bits, round half to even, and scale back,
restoring the sign. -/
def roundFloat (prec : ℕ) (q : ℚ) : ℚ :=
  if q = 0 then 0
  else if q < 0 then
    -((roundHalfEven (|q| * 2 ^ ((prec : ℤ) - 1 - binExp |q|)) : ℚ) *
      2 ^ (binExp |q| - ((prec : ℤ) - 1)))
  else
    (roundHalfEven (|q| * 2 ^ ((prec : ℤ) - 1 - binExp |q|)) : ℚ) *
      2 ^ (binExp |q| - ((prec : ℤ) - 1))

/-- IEEE-754 binary64: the value a JavaScript number literal denotes. -/
def toFloat64 (q : ℚ) : ℚ := roundFloat 53 q

/-- IEEE-754 binary32: the value a `Float32Array` element keeps. -/
def toFloat32 (q : ℚ) : ℚ := roundFloat 24 q

/-- The stored contents of a `new Float32Array([...])` literal: each
decimal is parsed as a binary64 number and then converted to binary32 on
storage. -/
def float32Store (xs : List ℚ) : List ℚ :=
  xs.map (fun x => toFloat32 (toFloat64 x))

/-- `HEAD_FILTER_FEEDFORWARD` of `audioAnalysis.ts`: a `Float32Array`
built from the listed decimals. -/
def HEAD_FILTER_FEEDFORWARD : List ℚ :=
  float32Store [1.53512485958697, -2.69169618940638, 1.19839281085285]

/-- `HEAD_FILTER_FEEDBACK` of `audioAnalysis.ts`: a `Float32Array`
built from the listed decimals. -/
def HEAD_FILTER_FEEDBACK : List ℚ :=
  float32Store [1, -1.69065929318241, 0.73248077421585]

/-- `RLB_FILTER_FEEDFORWARD` of `audioAnalysis.ts`: a `Float32Array`
built from the listed decimals. -/
def RLB_FILTER_FEEDFORWARD : List ℚ := float32Store [1, -2, 1]

/-- `RLB_FILTER_FEEDBACK` of `audioAnalysis.ts`: a `Float32Array`
built from the listed decimals. -/
def RLB_FILTER_FEEDBACK : List ℚ :=
  float32Store [1, -1.99004745483398, 0.99007225036621]

/-- The exact double value of `Math.SQRT1_2`, the `Q` of both
fallback biquad stages. -/
def SQRT1_2 : ℚ := 6369051672525773 / 9007199254740992

/-- The two filter graphs `applyKWeighting` can wire between source and
destination. -/
inductive FilterGraph where
  | iirCascade (ff1 fb1 ff2 fb2 : List ℚ)
  | biquadApprox (highpassFreq highpassQ shelfFreq shelfGain shelfQ : ℚ)
deriving DecidableEq, Repr

/-- The filter-graph choice of `applyKWeighting`: the BS.1770 IIR cascade
when `createIIRFilter` is available, otherwise the biquad
approximation (60 Hz high-pass and 4 kHz +4 dB high-shelf). -/
def kWeightingGraph (iirSupported : Bool) : FilterGraph :=
  if iirSupported then
    .iirCascade HEAD_FILTER_FEEDFORWARD HEAD_FILTER_FEEDBACK
      RLB_FILTER_FEEDFORWARD RLB_FILTER_FEEDBACK
  else
    .biquadApprox 60 SQRT1_2 4000 4 SQRT1_2

/-! ### Loudness-matching offset calculator
(`src/lib/loudnessMatch.ts` and its refined duplicate) -/

/-- A JavaScript number as the offset calculator sees it: `NaN`,
`±Infinity`, or a finite value. -/
inductive JSNum where
  | nan : JSNum
  | posInf : JSNum
  | negInf : JSNum
  | fin (q : ℚ) : JSNum
deriving DecidableEq, Repr

/-- `Number.isFinite`. -/
def JSNum.isFiniteNum : JSNum → Bool
  | .fin _ => true
  | _ => false

/-- JavaScript subtraction `a - b` on numbers with `NaN` and infinities. -/
def JSNum.sub : JSNum → JSNum → JSNum
  | .nan, _ => .nan
  | _, .nan => .nan
  | .posInf, .posInf => .nan
  | .posInf, _ => .posInf
  | .negInf, .negInf => .nan
  | .negInf, _ => .negInf
  | .fin _, .posInf => .negInf
  | .fin _, .negInf => .posInf
  | .fin a, .fin b => .fin (a - b)

/-- `Math.min` on two numbers: `NaN` propagates, otherwise the order
with `-Infinity` at the bottom and `Infinity` at the top. -/
def jsMin : JSNum → JSNum → JSNum
  | .nan, _ => .nan
  | _, .nan => .nan
  | .negInf, _ => .negInf
  | _, .negInf => .negInf
  | .posInf, b => b
  | a, .posInf => a
  | .fin a, .fin b => .fin (min a b)

/-- `Math.max` on two numbers: `NaN` propagates, otherwise the order
with `-Infinity` at the bottom and `Infinity` at the top. -/
def jsMax : JSNum → JSNum → JSNum
  | .nan, _ => .nan
  | _, .nan => .nan
  | .posInf, _ => .posInf
  | _, .posInf => .posInf
  | .negInf, b => b
  | a, .negInf => a
  | .fin a, .fin b => .fin (max a b)

/-- `computeLoudnessOffsets` of `src/lib/loudnessMatch.ts`.  The record
from track key to nullable loudness is embedded as an association list;
a `Record` literal's key order is its insertion order, and
`Object.entries` / `Object.keys` traverse it in that order.  Note that
the `entries` filter keeps every non-`null` value, finite or not. -/
def computeLoudnessOffsets (lufsByTrack : List (String × Option JSNum)) (capDb : ℚ) :
    List (String × JSNum) :=
  let entries := lufsByTrack.filter (fun p => p.2 ≠ none)
  if entries.isEmpty then lufsByTrack.map (fun p => (p.1, JSNum.fin 0))
  else
    let target := entries.foldl (fun m p => jsMin m (p.2.getD .nan)) .posInf
    lufsByTrack.map (fun p =>
      match p.2 with
      | none => (p.1, JSNum.fin 0)
      | some value => (p.1, jsMin (jsMax (value.sub target) (.fin 0)) (.fin capDb)))

/-- `computeLoudnessOffsets` of the refined duplicate module
(`src/unnamed/part_005`): only finite values are treated as valid, both
when collecting `validValues` and per track, and a final
`Number.isFinite` guard zeroes a non-finite offset. -/
def computeLoudnessOffsetsF (lufsByTrack : List (String × Option JSNum)) (capDb : ℚ) :
    List (String × JSNum) :=
  let validValues := lufsByTrack.filterMap (fun p =>
    match p.2 with
    | some (JSNum.fin q) => some q
    | _ => none)
  if validValues.isEmpty then lufsByTrack.map (fun p => (p.1, JSNum.fin 0))
  else
    let target : ℚ :=
      match validValues with
      | [] => 0
      | v :: vs => vs.foldl min v
    lufsByTrack.map (fun p =>
      match p.2 with
      | some (JSNum.fin q) =>
          let offset := jsMin (jsMax (JSNum.fin (q - target)) (.fin 0)) (.fin capDb)
          (p.1, if offset.isFiniteNum then offset else JSNum.fin 0)
      | _ => (p.1, JSNum.fin 0))

/-- The valid finite loudness values of an input map. -/
def validLoudnessValues (lufsByTrack : List (String × Option JSNum)) : List ℚ :=
  lufsByTrack.filterMap (fun p =>
    match p.2 with
    | some (JSNum.fin q) => some q
    | _ => none)

/-- Transcribed from the specification text: every offset is `0` when no track has a
valid finite loudness; otherwise the target is the minimum valid finite
loudness, an invalid (null or non-finite) loudness yields offset `0`,
and a valid one yields `clamp(loudness − target, 0, capDb)`. -/
def offsetsSpec (lufsByTrack : List (String × Option JSNum)) (capDb : ℚ) :
    List (String × JSNum) :=
  match validLoudnessValues lufsByTrack with
  | [] => lufsByTrack.map (fun p => (p.1, JSNum.fin 0))
  | v :: vs =>
      let target := vs.foldl min v
      lufsByTrack.map (fun p =>
        match p.2 with
        | some (JSNum.fin q) => (p.1, JSNum.fin (min (max (q - target) 0) capDb))
        | _ => (p.1, JSNum.fin 0))

/-- Whether every loudness value of the map is `null` or finite. -/
def allFiniteOrNull (lufsByTrack : List (String × Option JSNum)) : Prop :=
  ∀ p ∈ lufsByTrack, ∀ v, p.2 = some v → v.isFiniteNum = true

/-- `offsetToGain` of `loudnessMatch.ts`:
`Math.pow(10, -offsetDb / 20)`. -/
noncomputable def offsetToGain (offsetDb : ℝ) : ℝ :=
  (10 : ℝ) ^ (-offsetDb / 20)

/-- The payload extension used to state claim C10: `k` extra zero
samples on every channel and `k` extra unit channel weights. -/
def padPayload (p : LoudnessWorkerPayload) (k : ℕ) : LoudnessWorkerPayload :=
  { p with
    weightedChannels := p.weightedChannels.map (· ++ List.replicate k 0)
    originalChannels := p.originalChannels.map (· ++ List.replicate k 0)
    channelWeights := p.channelWeights ++ List.replicate k 1 }

/-- Every sample of every channel is exactly zero. -/
def allZeroChannels (channels : List (List ℚ)) : Prop :=
  ∀ data ∈ channels, ∀ x ∈ data, x = 0

/-- A stand-in for `Math.log10` used to evaluate witnesses on concrete
inputs; it agrees with the real logarithm at `1`, the only point where
the witnesses apply it. -/
def log10one : ℚ → ℚ := fun _ => 0

/-- A one-block payload whose single block passes the absolute gate but
(thanks to a negative relative gate offset) not the relative gate. -/
def relGateEmptyPayload : LoudnessWorkerPayload :=
  { weightedChannels := [[1]]
    originalChannels := [[0]]
    channelWeights := [1]
    blockSize := 1
    stepSize := 1
    totalSamples := 1
    originalLength := 1
    absoluteGate := -70
    relativeGateOffset := -5
    lufsOffset := 0 }

/-- `relGateEmptyPayload` with the original channel list emptied. -/
def noOriginalPayload : LoudnessWorkerPayload :=
  { relGateEmptyPayload with originalChannels := [] }

/-- An all-zero one-channel payload. -/
def silentPayload : LoudnessWorkerPayload :=
  { weightedChannels := [[0, 0]]
    originalChannels := [[0, 0]]
    channelWeights := [1]
    blockSize := 2
    stepSize := 1
    totalSamples := 2
    originalLength := 2
    absoluteGate := -70
    relativeGateOffset := 10
    lufsOffset := -691/1000 }

/-- A simple non-silent payload used by several witnesses. -/
def unitPayload : LoudnessWorkerPayload :=
  { weightedChannels := [[1]]
    originalChannels := [[1]]
    channelWeights := [1]
    blockSize := 1
    stepSize := 1
    totalSamples := 1
    originalLength := 1
    absoluteGate := -70
    relativeGateOffset := 10
    lufsOffset := 0 }

/-! ### Helper lemmas -/

/-- `filterMap` collapses to `map` when the function returns `some`
everywhere on the list. -/
theorem filterMap_eq_map_of_forall_some {α β : Type} (l : List α)
    (f : α → Option β) (g : α → β) (h : ∀ a ∈ l, f a = some (g a)) :
    l.filterMap f = l.map g := by
  induction l with
  | nil => rfl
  | cons a l ih =>
      rw [List.filterMap_cons, h a (List.mem_cons_self a l), List.map_cons,
        ih (fun x hx => h x (List.mem_cons_of_mem a hx))]

/-- The loop enumeration of `blockStarts` agrees with the
specification's "multiples of the step size below the total sample
count" whenever the step is positive. -/
theorem blockStarts_eq_specBlockStarts (total step : ℕ) (h : 0 < step) :
    blockStarts total step = specBlockStarts total step := by
  induction total with
  | zero =>
      have h0 : (step - 1) / step = 0 := Nat.div_eq_of_lt (by omega)
      simp [blockStarts, specBlockStarts, h0]
  | succ n ih =>
      unfold blockStarts specBlockStarts at *
      rw [List.range_succ, List.filter_append, ← ih]
      by_cases hm : n % step = 0
      · obtain ⟨q, rfl⟩ : ∃ q, n = step * q := by
          obtain ⟨q, hq⟩ := Nat.dvd_of_mod_eq_zero hm
          exact ⟨q, hq⟩
        have h2 : (step * q + step - 1) / step = q := by
          have e : step * q + step - 1 = step * q + (step - 1) := by omega
          rw [e, Nat.mul_add_div h, Nat.div_eq_of_lt (by omega), Nat.add_zero]
        have h3 : (step * q + 1 + step - 1) / step = q + 1 := by
          have e : step * q + 1 + step - 1 = step * q + step := by omega
          rw [e, Nat.add_div_right _ h, Nat.mul_div_cancel_left q h]
        rw [h2, h3, List.range_succ, List.map_append]
        simp [hm, Nat.mul_comm]
      · have hq := Nat.div_add_mod n step
        have hrlt : n % step < step := Nat.mod_lt _ h
        obtain ⟨r, hr⟩ := Nat.exists_eq_succ_of_ne_zero hm
        have h3 : (n + 1 + step - 1) / step = (n + step - 1) / step := by
          have e1 : n + 1 + step - 1 = step * (n / step + 1) + (r + 1) := by
            rw [Nat.mul_add, Nat.mul_one]; omega
          have e2 : n + step - 1 = step * (n / step + 1) + r := by
            rw [Nat.mul_add, Nat.mul_one]; omega
          rw [e1, e2, Nat.mul_add_div h, Nat.mul_add_div h,
            Nat.div_eq_of_lt (show r + 1 < step by omega),
            Nat.div_eq_of_lt (show r < step by omega)]
        rw [h3]
        simp [hm]

/-- The source's weighted block energy is the specification's
channel-weight-weighted sum of per-channel mean squares. -/
theorem specBlockMeanSquare_eq (weightedChannels : List (List ℚ))
    (channelWeights : List ℚ) (blockStart len : ℕ) :
    specBlockMeanSquare weightedChannels channelWeights blockStart len =
      blockMeanSquare weightedChannels channelWeights blockStart len := by
  simp [specBlockMeanSquare, blockMeanSquare, specChannelMeanSquare,
    channelEnergy, pow_two]

/-- With a positive step and a positive block size, the source's block
list (which skips empty blocks) is exactly the specification's. -/
theorem codeBlocks_eq_specBlocks (log10 : ℚ → ℚ) (p : LoudnessWorkerPayload)
    (hs : 0 < p.stepSize) (hb : 0 < p.blockSize) :
    codeBlocks log10 p = specBlocks log10 p := by
  unfold codeBlocks specBlocks
  rw [← blockStarts_eq_specBlockStarts _ _ hs]
  apply filterMap_eq_map_of_forall_some
  intro start hstart
  have hlt : start < p.totalSamples := by
    rw [blockStarts_eq_specBlockStarts _ _ hs] at hstart
    exact List.mem_range.mp (List.mem_of_mem_filter hstart)
  have hlen : min p.blockSize (p.totalSamples - start) ≠ 0 := by
    simp only [ne_eq, Nat.min_eq_zero_iff]
    omega
  simp only [hlen, if_false, specBlockMeanSquare_eq, toLUFS]

/-- The absolute gates of source and specification agree. -/
theorem gatedBlocks_eq_specAbsGated (log10 : ℚ → ℚ) (p : LoudnessWorkerPayload)
    (hs : 0 < p.stepSize) (hb : 0 < p.blockSize) :
    gatedBlocks log10 p = specAbsGated log10 p := by
  unfold gatedBlocks specAbsGated
  rw [codeBlocks_eq_specBlocks log10 p hs hb]

/-- Every pair recorded by the block scan carries the instantaneous
loudness of its own mean square. -/
theorem mem_codeBlocks_snd (log10 : ℚ → ℚ) (p : LoudnessWorkerPayload)
    {b : ℚ × Option ℚ} (hb : b ∈ codeBlocks log10 p) :
    b.2 = toLUFS log10 b.1 p.lufsOffset := by
  unfold codeBlocks at hb
  obtain ⟨start, _, hf⟩ := List.mem_filterMap.mp hb
  by_cases hlen : min p.blockSize (p.totalSamples - start) = 0
  · simp [hlen] at hf
  · simp only [hlen, if_false, Option.some_inj] at hf
    rw [← hf]

/-- Every pair recorded by the block scan has a mean square of the
source's `blockMeanSquare` form. -/
theorem mem_codeBlocks_fst (log10 : ℚ → ℚ) (p : LoudnessWorkerPayload)
    {b : ℚ × Option ℚ} (hb : b ∈ codeBlocks log10 p) :
    ∃ start len, b.1 = blockMeanSquare p.weightedChannels p.channelWeights start len := by
  unfold codeBlocks at hb
  obtain ⟨start, _, hf⟩ := List.mem_filterMap.mp hb
  by_cases hlen : min p.blockSize (p.totalSamples - start) = 0
  · simp [hlen] at hf
  · simp only [hlen, if_false, Option.some_inj] at hf
    exact ⟨start, min p.blockSize (p.totalSamples - start), by rw [← hf]⟩

/-- A block that passes the absolute gate has a strictly positive mean
square (a non-positive one has loudness `-∞`, which passes no gate). -/
theorem mem_gatedBlocks_pos (log10 : ℚ → ℚ) (p : LoudnessWorkerPayload)
    {b : ℚ × Option ℚ} (hb : b ∈ gatedBlocks log10 p) : 0 < b.1 := by
  unfold gatedBlocks at hb
  have hmem := List.mem_of_mem_filter hb
  have hpass := List.of_mem_filter hb
  rw [mem_codeBlocks_snd log10 p hmem] at hpass
  unfold toLUFS at hpass
  by_cases hle : b.1 ≤ 0
  · simp [hle, lufsGtB] at hpass
  · exact lt_of_not_le hle

/-- With a non-empty absolutely gated set, the preliminary integration
never returns `null`: its average energy is strictly positive. -/
theorem preliminaryLoudness_eq (log10 : ℚ → ℚ) (p : LoudnessWorkerPayload)
    (hne : gatedBlocks log10 p ≠ []) :
    preliminaryLoudness log10 p =
      some (p.lufsOffset +
        10 * log10 (((gatedBlocks log10 p).map (·.1)).sum /
          (((gatedBlocks log10 p).map (·.1)).length : ℚ))) := by
  unfold preliminaryLoudness integrateBlocks
  have hne' : (gatedBlocks log10 p).map (·.1) ≠ [] := by
    simpa using hne
  have hpos : ∀ x ∈ (gatedBlocks log10 p).map (·.1), 0 < x := by
    intro x hx
    obtain ⟨b, hb, rfl⟩ := List.mem_map.mp hx
    exact mem_gatedBlocks_pos log10 p hb
  have hsum : 0 < ((gatedBlocks log10 p).map (·.1)).sum :=
    List.sum_pos _ hpos hne'
  have hlen : (0 : ℚ) < (((gatedBlocks log10 p).map (·.1)).length : ℚ) := by
    have : 0 < ((gatedBlocks log10 p).map (·.1)).length :=
      List.length_pos.mpr hne'
    exact_mod_cast this
  have henergy : 0 < ((gatedBlocks log10 p).map (·.1)).sum /
      (((gatedBlocks log10 p).map (·.1)).length : ℚ) := div_pos hsum hlen
  have henergy' : 0 < ((gatedBlocks log10 p).map (·.1)).sum /
      (((gatedBlocks log10 p).length : ℚ)) := by
    simpa [List.length_map] using henergy
  simp [List.isEmpty_iff, hne', not_le.mpr henergy']

/-- The relative gates of source and specification agree whenever the
absolutely gated set is non-empty. -/
theorem relGatedBlocks_eq_specRelGated (log10 : ℚ → ℚ) (p : LoudnessWorkerPayload)
    (hs : 0 < p.stepSize) (hb : 0 < p.blockSize)
    (hne : gatedBlocks log10 p ≠ []) :
    relGatedBlocks log10 p = specRelGated log10 p := by
  have hg := gatedBlocks_eq_specAbsGated log10 p hs hb
  unfold relGatedBlocks specRelGated specPreliminary
  rw [preliminaryLoudness_eq log10 p hne, hg]

/-- A non-empty absolutely gated set forces a non-empty weighted channel
list: an empty one only produces zero block energies, which pass no
gate. -/
theorem weighted_ne_nil_of_gated (log10 : ℚ → ℚ) (p : LoudnessWorkerPayload)
    (hne : gatedBlocks log10 p ≠ []) : p.weightedChannels ≠ [] := by
  obtain ⟨b, hb⟩ := List.exists_mem_of_ne_nil _ hne
  have hpos := mem_gatedBlocks_pos log10 p hb
  obtain ⟨start, len, he⟩ :=
    mem_codeBlocks_fst log10 p (List.mem_of_mem_filter hb)
  intro hempty
  rw [hempty] at he
  simp [blockMeanSquare] at he
  rw [he] at hpos
  exact lt_irrefl 0 hpos

/-- A non-empty absolutely gated set forces a non-empty block list. -/
theorem codeBlocks_ne_nil_of_gated (log10 : ℚ → ℚ) (p : LoudnessWorkerPayload)
    (hne : gatedBlocks log10 p ≠ []) : codeBlocks log10 p ≠ [] := by
  intro h
  unfold gatedBlocks at hne
  rw [h] at hne
  exact hne rfl

/-- The relative-gate-empty fallback: with original channels present, a
non-empty absolutely gated set and an empty relatively gated set, the
final integrated loudness is the absolutely gated average. -/
theorem computeLoudnessMetrics_relGate_empty (log10 : ℚ → ℚ)
    (p : LoudnessWorkerPayload) (hO : p.originalChannels ≠ [])
    (hG : gatedBlocks log10 p ≠ []) (hR : relGatedBlocks log10 p = []) :
    (computeLoudnessMetrics log10 p).lufsIntegrated =
      some (p.lufsOffset +
        10 * log10 (((gatedBlocks log10 p).map (·.1)).sum /
          (((gatedBlocks log10 p).map (·.1)).length : ℚ))) := by
  have hW := weighted_ne_nil_of_gated log10 p hG
  have hB := codeBlocks_ne_nil_of_gated log10 p hG
  have hpre := preliminaryLoudness_eq log10 p hG
  have hR' : (gatedBlocks log10 p).filter
      (fun b => lufsGeB b.2
        ((p.lufsOffset +
          10 * log10 (((gatedBlocks log10 p).map (·.1)).sum /
            (((gatedBlocks log10 p).map (·.1)).length : ℚ))) -
          p.relativeGateOffset)) = [] := by
    have e : relGatedBlocks log10 p = (gatedBlocks log10 p).filter
        (fun b => lufsGeB b.2
          ((p.lufsOffset +
            10 * log10 (((gatedBlocks log10 p).map (·.1)).sum /
              (((gatedBlocks log10 p).map (·.1)).length : ℚ))) -
            p.relativeGateOffset)) := by
      unfold relGatedBlocks
      rw [hpre]
    rw [← e]
    exact hR
  unfold computeLoudnessMetrics
  rw [hpre]
  simp only [List.isEmpty_iff, hW, hO, hB, hG, or_self, if_false, false_or,
    or_false]
  rw [hR']
  simp only [List.isEmpty_nil, if_true, if_pos rfl]
  exact hpre

/-- If no block passes the absolute gate, the integrated loudness is
`null` on every path of `computeLoudnessMetrics`. -/
theorem lufsIntegrated_none_of_no_gate (log10 : ℚ → ℚ)
    (p : LoudnessWorkerPayload)
    (h : ∀ b ∈ codeBlocks log10 p, lufsGtB b.2 p.absoluteGate = false) :
    (computeLoudnessMetrics log10 p).lufsIntegrated = none := by
  have hg : gatedBlocks log10 p = [] := by
    unfold gatedBlocks
    rw [List.filter_eq_nil_iff]
    intro b hb
    rw [h b hb]
    exact Bool.false_ne_true
  unfold computeLoudnessMetrics
  by_cases h1 : p.weightedChannels = [] ∨ p.originalChannels = []
  · simp [List.isEmpty_iff, h1]
  · by_cases h2 : codeBlocks log10 p = []
    · simp [List.isEmpty_iff, h1, h2]
    · simp [List.isEmpty_iff, h1, h2, hg]

/-- A defaulted read is either a member of the list or the default. -/
theorem getD_mem_or_default {α : Type} (l : List α) (i : ℕ) (d : α) :
    l.getD i d ∈ l ∨ l.getD i d = d := by
  rw [List.getD_eq_getElem?_getD]
  cases h : l[i]? with
  | none => right; rfl
  | some v =>
      left
      simpa using List.getElem?_mem h

/-- Reads from an all-zero channel yield zero. -/
theorem getD_eq_zero_of_allZero {data : List ℚ} (h : ∀ x ∈ data, x = 0)
    (i : ℕ) : data.getD i 0 = 0 := by
  rcases getD_mem_or_default data i 0 with hm | hd
  · exact h _ hm
  · exact hd

/-- All-zero weighted channels only produce zero block energies. -/
theorem blockMeanSquare_eq_zero_of_allZero {weightedChannels : List (List ℚ)}
    (h : allZeroChannels weightedChannels) (channelWeights : List ℚ)
    (blockStart len : ℕ) :
    blockMeanSquare weightedChannels channelWeights blockStart len = 0 := by
  unfold blockMeanSquare
  apply List.sum_eq_zero
  intro x hx
  obtain ⟨ch, _, rfl⟩ := List.mem_map.mp hx
  have hzero : ∀ y ∈ weightedChannels.getD ch [], y = 0 := by
    rcases getD_mem_or_default weightedChannels ch [] with hm | hd
    · exact h _ hm
    · rw [hd]; intro y hy; cases hy
  have he : channelEnergy (weightedChannels.getD ch []) blockStart len = 0 := by
    unfold channelEnergy
    apply List.sum_eq_zero
    intro y hy
    obtain ⟨i, _, rfl⟩ := List.mem_map.mp hy
    rw [getD_eq_zero_of_allZero hzero, mul_zero]
  rw [he, zero_div, mul_zero]

/-- Bounding a running `max` fold: the fold is below `c` iff the start
and every folded value are. -/
theorem foldl_max_le_iff {α : Type} (g : α → ℚ) (l : List α) (acc c : ℚ) :
    l.foldl (fun a x => max a (g x)) acc ≤ c ↔ acc ≤ c ∧ ∀ x ∈ l, g x ≤ c := by
  induction l generalizing acc with
  | nil => simp
  | cons y l ih =>
      rw [List.foldl_cons, ih, max_le_iff]
      simp only [List.mem_cons]
      constructor
      · rintro ⟨⟨h1, h2⟩, h3⟩
        exact ⟨h1, fun x hx => hx.elim (fun e => e ▸ h2) (h3 x)⟩
      · rintro ⟨h1, h2⟩
        exact ⟨⟨h1, h2 y (Or.inl rfl)⟩, fun x hx => h2 x (Or.inr hx)⟩

/-- Bounding the peak scan: the scanned peak is below `c` iff `c` is
non-negative and every scanned absolute sample is below `c`. -/
theorem peakScan_le_iff (channels : List (List ℚ)) (len : ℕ) (c : ℚ) :
    peakScan channels len ≤ c ↔
      0 ≤ c ∧ ∀ data ∈ channels, ∀ i ∈ List.range len, |data.getD i 0| ≤ c := by
  unfold peakScan
  suffices haux : ∀ (chs : List (List ℚ)) (acc : ℚ),
      chs.foldl (fun a data =>
        (List.range len).foldl (fun a i => max a |data.getD i 0|) a) acc ≤ c ↔
        acc ≤ c ∧ ∀ data ∈ chs, ∀ i ∈ List.range len, |data.getD i 0| ≤ c by
    exact haux channels 0
  intro chs
  induction chs with
  | nil => simp
  | cons d chs ih =>
      intro acc
      rw [List.foldl_cons, ih, foldl_max_le_iff]
      simp only [List.mem_cons]
      constructor
      · rintro ⟨⟨h1, h2⟩, h3⟩
        exact ⟨h1, fun data hd => hd.elim (fun e => e ▸ h2) (h3 data)⟩
      · rintro ⟨h1, h2⟩
        exact ⟨⟨h1, h2 d (Or.inl rfl)⟩, fun data hd => h2 data (Or.inr hd)⟩

/-- The peak scan never goes negative. -/
theorem peakScan_nonneg (channels : List (List ℚ)) (len : ℕ) :
    0 ≤ peakScan channels len :=
  ((peakScan_le_iff channels len (peakScan channels len)).mp le_rfl).1

/-- The peak scan is zero exactly when every scanned sample is zero. -/
theorem peakScan_eq_zero_iff (channels : List (List ℚ)) (len : ℕ) :
    peakScan channels len = 0 ↔
      ∀ data ∈ channels, ∀ i ∈ List.range len, data.getD i 0 = 0 := by
  constructor
  · intro h data hd i hi
    have := ((peakScan_le_iff channels len 0).mp h.le).2 data hd i hi
    exact abs_nonpos_iff.mp this
  · intro h
    refine le_antisymm ?_ (peakScan_nonneg channels len)
    rw [peakScan_le_iff]
    exact ⟨le_rfl, fun data hd i hi => by rw [h data hd i hi]; simp⟩

/-- Bounding the full-buffer sample-peak fold of `computeSamplePeakDb`. -/
theorem samplePeak_le_iff (channels : List (List ℚ)) (c : ℚ) :
    channels.foldl (fun acc data => data.foldl (fun a x => max a |x|) acc) 0 ≤ c ↔
      0 ≤ c ∧ ∀ data ∈ channels, ∀ x ∈ data, |x| ≤ c := by
  suffices haux : ∀ (chs : List (List ℚ)) (acc : ℚ),
      chs.foldl (fun acc data => data.foldl (fun a x => max a |x|) acc) acc ≤ c ↔
        acc ≤ c ∧ ∀ data ∈ chs, ∀ x ∈ data, |x| ≤ c by
    exact haux channels 0
  intro chs
  induction chs with
  | nil => simp
  | cons d chs ih =>
      intro acc
      rw [List.foldl_cons, ih, foldl_max_le_iff]
      simp only [List.mem_cons]
      constructor
      · rintro ⟨⟨h1, h2⟩, h3⟩
        exact ⟨h1, fun data hd => hd.elim (fun e => e ▸ h2) (h3 data)⟩
      · rintro ⟨h1, h2⟩
        exact ⟨⟨h1, h2 d (Or.inl rfl)⟩, fun data hd => h2 data (Or.inr hd)⟩

/-- The sample-peak fold never goes negative. -/
theorem samplePeak_nonneg (channels : List (List ℚ)) :
    0 ≤ channels.foldl (fun acc data => data.foldl (fun a x => max a |x|) acc) 0 :=
  ((samplePeak_le_iff channels _).mp le_rfl).1

/-- The sample-peak fold is zero exactly when every sample is zero. -/
theorem samplePeak_eq_zero_iff (channels : List (List ℚ)) :
    channels.foldl (fun acc data => data.foldl (fun a x => max a |x|) acc) 0 = 0 ↔
      allZeroChannels channels := by
  constructor
  · intro h data hd x hx
    have := ((samplePeak_le_iff channels 0).mp h.le).2 data hd x hx
    exact abs_nonpos_iff.mp this
  · intro h
    refine le_antisymm ?_ (samplePeak_nonneg channels)
    rw [samplePeak_le_iff]
    exact ⟨le_rfl, fun data hd x hx => by rw [h data hd x hx]; simp⟩

/-- `filterMap` only depends on the function's values on the list. -/
theorem filterMap_congr_fun {α β : Type} (l : List α) (f g : α → Option β)
    (h : ∀ a ∈ l, f a = g a) : l.filterMap f = l.filterMap g := by
  induction l with
  | nil => rfl
  | cons a l ih =>
      rw [List.filterMap_cons, List.filterMap_cons,
        h a (List.mem_cons_self a l),
        ih (fun x hx => h x (List.mem_cons_of_mem a hx))]

/-- Appending padding equal to the default does not change a defaulted
read. -/
theorem getD_append_replicate {α : Type} (l : List α) (k i : ℕ) (c : α) :
    (l ++ List.replicate k c).getD i c = l.getD i c := by
  rw [List.getD_eq_getElem?_getD, List.getD_eq_getElem?_getD,
    List.getElem?_append]
  by_cases h : i < l.length
  · rw [if_pos h]
  · rw [if_neg h, List.getElem?_eq_none (le_of_not_lt h),
      List.getElem?_replicate]
    by_cases h2 : i - l.length < k <;> simp [h2]

/-- Zero padding does not change a channel's summed block energy. -/
theorem channelEnergy_pad (data : List ℚ) (k blockStart len : ℕ) :
    channelEnergy (data ++ List.replicate k 0) blockStart len =
      channelEnergy data blockStart len := by
  unfold channelEnergy
  apply congrArg List.sum
  apply List.map_congr_left
  intro i _
  rw [getD_append_replicate]

/-- Zero-padded channels and one-padded weights give every block the
same energy. -/
theorem blockMeanSquare_pad (weightedChannels : List (List ℚ))
    (channelWeights : List ℚ) (k blockStart len : ℕ) :
    blockMeanSquare (weightedChannels.map (· ++ List.replicate k 0))
      (channelWeights ++ List.replicate k 1) blockStart len =
      blockMeanSquare weightedChannels channelWeights blockStart len := by
  unfold blockMeanSquare
  rw [List.length_map]
  apply congrArg List.sum
  apply List.map_congr_left
  intro ch hch
  have hlt : ch < weightedChannels.length := List.mem_range.mp hch
  have h1 : (channelWeights ++ List.replicate k 1).getD ch 1 =
      channelWeights.getD ch 1 := getD_append_replicate _ _ _ _
  have h2 : (weightedChannels.map (· ++ List.replicate k 0)).getD ch [] =
      weightedChannels[ch] ++ List.replicate k 0 := by
    rw [List.getD_eq_getElem _ _ (by rw [List.length_map]; exact hlt),
      List.getElem_map]
  have h3 : weightedChannels.getD ch [] = weightedChannels[ch] :=
    List.getD_eq_getElem _ _ hlt
  rw [h1, h2, h3, channelEnergy_pad]

/-- Zero padding does not change the original-channel peak scan. -/
theorem peakScan_pad (channels : List (List ℚ)) (k len : ℕ) :
    peakScan (channels.map (· ++ List.replicate k 0)) len =
      peakScan channels len := by
  unfold peakScan
  rw [List.foldl_map]
  apply List.foldl_ext
  intro acc data _
  apply List.foldl_ext
  intro a i _
  rw [getD_append_replicate]

/-- Padding leaves the recorded block list unchanged. -/
theorem codeBlocks_pad (log10 : ℚ → ℚ) (p : LoudnessWorkerPayload) (k : ℕ) :
    codeBlocks log10 (padPayload p k) = codeBlocks log10 p := by
  unfold codeBlocks padPayload
  apply filterMap_congr_fun
  intro start _
  by_cases hlen : min p.blockSize (p.totalSamples - start) = 0
  · simp [hlen]
  · simp only [hlen, if_false]
    rw [blockMeanSquare_pad]

/-- Padding leaves the absolutely gated list unchanged. -/
theorem gatedBlocks_pad (log10 : ℚ → ℚ) (p : LoudnessWorkerPayload) (k : ℕ) :
    gatedBlocks log10 (padPayload p k) = gatedBlocks log10 p := by
  unfold gatedBlocks
  rw [codeBlocks_pad]
  rfl

/-- Padding leaves the preliminary loudness unchanged. -/
theorem preliminaryLoudness_pad (log10 : ℚ → ℚ) (p : LoudnessWorkerPayload)
    (k : ℕ) :
    preliminaryLoudness log10 (padPayload p k) = preliminaryLoudness log10 p := by
  unfold preliminaryLoudness
  rw [gatedBlocks_pad]
  rfl

/-- Padding every channel with zero samples and the weight list with
unit weights leaves the whole analysis unchanged: out-of-range sample
reads behave as `0` and missing channel weights as `1`. -/
theorem computeLoudnessMetrics_pad (log10 : ℚ → ℚ) (p : LoudnessWorkerPayload)
    (k : ℕ) :
    computeLoudnessMetrics log10 (padPayload p k) =
      computeLoudnessMetrics log10 p := by
  unfold computeLoudnessMetrics
  rw [codeBlocks_pad, gatedBlocks_pad, preliminaryLoudness_pad]
  have hmap : ∀ l : List (List ℚ),
      (l.map (· ++ List.replicate k 0)).isEmpty = l.isEmpty := by
    intro l; cases l <;> rfl
  have hw : (padPayload p k).weightedChannels.isEmpty =
      p.weightedChannels.isEmpty := hmap _
  have ho : (padPayload p k).originalChannels.isEmpty =
      p.originalChannels.isEmpty := hmap _
  have hp : peakScan (padPayload p k).originalChannels
      (padPayload p k).originalLength =
      peakScan p.originalChannels p.originalLength := by
    show peakScan (p.originalChannels.map (· ++ List.replicate k 0))
        p.originalLength = peakScan p.originalChannels p.originalLength
    exact peakScan_pad _ _ _
  rw [hw, ho, hp]
  rfl

/-- The refined offset calculator is exactly the specification's offset
function. -/
theorem offsetsF_eq_offsetsSpec (l : List (String × Option JSNum)) (capDb : ℚ) :
    computeLoudnessOffsetsF l capDb = offsetsSpec l capDb := by
  unfold computeLoudnessOffsetsF offsetsSpec validLoudnessValues
  cases hv : l.filterMap (fun p => match p.2 with
      | some (JSNum.fin q) => some q
      | _ => none) with
  | nil => simp
  | cons v vs =>
      simp only [List.isEmpty_cons, Bool.false_eq_true, if_false]
      apply List.map_congr_left
      intro p _
      rcases p with ⟨key, val⟩
      match val with
      | none => rfl
      | some .nan => rfl
      | some .posInf => rfl
      | some .negInf => rfl
      | some (.fin q) => simp [jsMin, jsMax, JSNum.isFiniteNum]

/-- A finite JavaScript number is a `fin`. -/
theorem isFiniteNum_iff (x : JSNum) :
    x.isFiniteNum = true ↔ ∃ q, x = JSNum.fin q := by
  cases x <;> simp [JSNum.isFiniteNum]

/-- Filtering out the `null` entries first does not change the extracted
finite values. -/
theorem filterMap_filter_ne_none (l : List (String × Option JSNum)) :
    (l.filter (fun p => p.2 ≠ none)).filterMap (fun p => match p.2 with
      | some (JSNum.fin q) => some q
      | _ => none) =
      l.filterMap (fun p => match p.2 with
        | some (JSNum.fin q) => some q
        | _ => none) := by
  induction l with
  | nil => rfl
  | cons p rest ih =>
      obtain ⟨key, val⟩ := p
      rw [List.filter_cons]
      cases val with
      | none =>
          rw [if_neg (by simp)]
          conv_rhs => rw [List.filterMap_cons]
          exact ih
      | some x =>
          rw [if_pos (by simp), List.filterMap_cons, List.filterMap_cons, ih]

/-- A `Math.min` reduction over all-finite entries starting from a
finite accumulator is the rational minimum fold over the extracted
values. -/
theorem target_foldl_fin (entries : List (String × Option JSNum))
    (h : ∀ p ∈ entries, ∃ q, p.2 = some (JSNum.fin q)) (a : ℚ) :
    entries.foldl (fun m p => jsMin m (p.2.getD .nan)) (JSNum.fin a) =
      JSNum.fin ((entries.filterMap (fun p => match p.2 with
        | some (JSNum.fin q) => some q
        | _ => none)).foldl min a) := by
  induction entries generalizing a with
  | nil => rfl
  | cons p rest ih =>
      obtain ⟨q, hq⟩ := h p (List.mem_cons_self p rest)
      rw [List.foldl_cons, List.filterMap_cons, hq]
      simp only [Option.getD_some, jsMin]
      rw [List.foldl_cons]
      exact ih (fun x hx => h x (List.mem_cons_of_mem p hx)) (min a q)

/-- The `Math.min` reduction of `computeLoudnessOffsets` starting from
`Infinity` over a non-empty all-finite entry list. -/
theorem target_foldl_posInf (entries : List (String × Option JSNum))
    (h : ∀ p ∈ entries, ∃ q, p.2 = some (JSNum.fin q))
    {v : ℚ} {vs : List ℚ}
    (hv : entries.filterMap (fun p => match p.2 with
      | some (JSNum.fin q) => some q
      | _ => none) = v :: vs) :
    entries.foldl (fun m p => jsMin m (p.2.getD .nan)) .posInf =
      JSNum.fin (vs.foldl min v) := by
  cases entries with
  | nil => cases hv
  | cons p rest =>
      obtain ⟨q, hq⟩ := h p (List.mem_cons_self p rest)
      simp only [List.filterMap_cons, hq] at hv
      have e : jsMin JSNum.posInf (JSNum.fin q) = JSNum.fin q := rfl
      simp only [List.foldl_cons, hq, Option.getD_some, e]
      rw [target_foldl_fin rest (fun x hx => h x (List.mem_cons_of_mem p hx)) q]
      injection hv with h1 h2
      rw [h1, h2]

/-- On maps whose loudness values are all `null`-or-finite, the
`loudnessMatch.ts` calculator agrees with the refined duplicate. -/
theorem computeLoudnessOffsets_eq_F (l : List (String × Option JSNum)) (capDb : ℚ)
    (h : allFiniteOrNull l) :
    computeLoudnessOffsets l capDb = computeLoudnessOffsetsF l capDb := by
  have hfin : ∀ p ∈ l.filter (fun p => p.2 ≠ none),
      ∃ q, p.2 = some (JSNum.fin q) := by
    intro p hp
    have hmem := List.mem_of_mem_filter hp
    have hne : p.2 ≠ none := by simpa using List.of_mem_filter hp
    cases hval : p.2 with
    | none => exact absurd hval hne
    | some x =>
        obtain ⟨q, rfl⟩ := (isFiniteNum_iff x).mp (h p hmem x hval)
        exact ⟨q, rfl⟩
  unfold computeLoudnessOffsets computeLoudnessOffsetsF
  by_cases he : l.filter (fun p => p.2 ≠ none) = []
  · have hv : l.filterMap (fun p => match p.2 with
        | some (JSNum.fin q) => some q
        | _ => none) = [] := by
      rw [← filterMap_filter_ne_none, he]
      rfl
    simp only [he, hv, List.isEmpty_nil, if_true]
  · cases hv : l.filterMap (fun p => match p.2 with
        | some (JSNum.fin q) => some q
        | _ => none) with
    | nil =>
        obtain ⟨p, hp⟩ := List.exists_mem_of_ne_nil _ he
        obtain ⟨q, hq⟩ := hfin p hp
        have hqmem : q ∈ l.filterMap (fun p => match p.2 with
            | some (JSNum.fin q) => some q
            | _ => none) :=
          List.mem_filterMap.mpr ⟨p, List.mem_of_mem_filter hp, by rw [hq]⟩
        rw [hv] at hqmem
        cases hqmem
    | cons v vs =>
        have htarget := target_foldl_posInf (l.filter (fun p => p.2 ≠ none)) hfin
          (by rw [filterMap_filter_ne_none]; exact hv)
        simp only [List.isEmpty_cons, Bool.false_eq_true, if_false,
          List.isEmpty_iff, he]
        rw [htarget]
        apply List.map_congr_left
        intro p hp
        rcases p with ⟨key, val⟩
        cases val with
        | none => rfl
        | some x =>
            obtain ⟨q, rfl⟩ := (isFiniteNum_iff x).mp (h (key, some x) hp x rfl)
            simp [JSNum.sub, jsMin, jsMax, JSNum.isFiniteNum]

/-- A lower bound of the seed and of every element bounds a `min` fold. -/
theorem le_foldl_min (q v : ℚ) (vs : List ℚ) (h1 : q ≤ v)
    (h2 : ∀ x ∈ vs, q ≤ x) : q ≤ vs.foldl min v := by
  induction vs generalizing v with
  | nil => exact h1
  | cons x xs ih =>
      rw [List.foldl_cons]
      exact ih (min v x) (le_min h1 (h2 x (List.mem_cons_self x xs)))
        (fun y hy => h2 y (List.mem_cons_of_mem x hy))

/-- Every entry the specification's offset function produces is a finite
value inside `[0, capDb]` (for a non-negative cap). -/
theorem offsetsSpec_entries_range (l : List (String × Option JSNum)) (capDb : ℚ)
    (hc : 0 ≤ capDb) :
    ∀ kv ∈ offsetsSpec l capDb, ∃ q, kv.2 = JSNum.fin q ∧ 0 ≤ q ∧ q ≤ capDb := by
  intro kv hkv
  unfold offsetsSpec at hkv
  rcases hveq : validLoudnessValues l with _ | ⟨v, vs⟩ <;> rw [hveq] at hkv
  · obtain ⟨p, _, rfl⟩ := List.mem_map.mp hkv
    exact ⟨0, rfl, le_rfl, hc⟩
  · obtain ⟨p, _, rfl⟩ := List.mem_map.mp hkv
    rcases p with ⟨key, val⟩
    match val with
    | none => exact ⟨0, rfl, le_rfl, hc⟩
    | some .nan => exact ⟨0, rfl, le_rfl, hc⟩
    | some .posInf => exact ⟨0, rfl, le_rfl, hc⟩
    | some .negInf => exact ⟨0, rfl, le_rfl, hc⟩
    | some (.fin q) =>
        refine ⟨min (max (q - vs.foldl min v) 0) capDb, rfl, ?_, min_le_right _ _⟩
        exact le_min (le_max_right _ 0) hc

/-- The quietest valid track receives offset exactly `0`. -/
theorem offsetsSpec_quietest (l : List (String × Option JSNum)) (capDb : ℚ)
    (hc : 0 ≤ capDb) (k : String) (q : ℚ)
    (hin : (k, some (JSNum.fin q)) ∈ l)
    (hmin : ∀ x ∈ validLoudnessValues l, q ≤ x) :
    (k, JSNum.fin 0) ∈ offsetsSpec l capDb := by
  have hqv : q ∈ validLoudnessValues l := by
    unfold validLoudnessValues
    exact List.mem_filterMap.mpr ⟨(k, some (JSNum.fin q)), hin, rfl⟩
  rcases hveq : validLoudnessValues l with _ | ⟨v, vs⟩
  · rw [hveq] at hqv
    cases hqv
  · unfold offsetsSpec
    rw [hveq]
    have htarget : q ≤ vs.foldl min v := by
      apply le_foldl_min
      · exact hmin v (by rw [hveq]; exact List.mem_cons_self v vs)
      · intro x hx
        exact hmin x (by rw [hveq]; exact List.mem_cons_of_mem v hx)
    apply List.mem_map.mpr
    refine ⟨(k, some (JSNum.fin q)), hin, ?_⟩
    have hmax : max (q - vs.foldl min v) 0 = 0 :=
      max_eq_right (by linarith)
    simp [hmax, min_eq_left hc]

/-- On the non-degenerate path, every branch of `computeLoudnessMetrics`
reports the same peak value: the clipped scan result. -/
theorem peakDb_eq (log10 : ℚ → ℚ) (p : LoudnessWorkerPayload)
    (hW : ¬(p.weightedChannels.isEmpty ∨ p.originalChannels.isEmpty)) :
    (computeLoudnessMetrics log10 p).peakDb =
      if 0 < peakScan p.originalChannels p.originalLength then
        some (min (20 * log10 (peakScan p.originalChannels p.originalLength)) 0)
      else none := by
  unfold computeLoudnessMetrics
  rw [if_neg hW]
  split
  · rfl
  · split
    · rfl
    · split <;> rfl

/-- An all-zero payload analyzes to `⟨null, null⟩`. -/
theorem computeLoudnessMetrics_allZero (log10 : ℚ → ℚ)
    (p : LoudnessWorkerPayload) (hw : allZeroChannels p.weightedChannels)
    (ho : allZeroChannels p.originalChannels) :
    computeLoudnessMetrics log10 p = ⟨none, none⟩ := by
  have hlufs : (computeLoudnessMetrics log10 p).lufsIntegrated = none := by
    apply lufsIntegrated_none_of_no_gate
    intro b hb
    obtain ⟨start, len, hms⟩ := mem_codeBlocks_fst log10 p hb
    have hzero : b.1 = 0 := by
      rw [hms]
      exact blockMeanSquare_eq_zero_of_allZero hw _ _ _
    rw [mem_codeBlocks_snd log10 p hb, hzero]
    rfl
  have hpeak : (computeLoudnessMetrics log10 p).peakDb = none := by
    by_cases hW : p.weightedChannels.isEmpty ∨ p.originalChannels.isEmpty
    · unfold computeLoudnessMetrics
      rw [if_pos hW]
    · rw [peakDb_eq log10 p hW]
      have hscan : peakScan p.originalChannels p.originalLength = 0 := by
        rw [peakScan_eq_zero_iff]
        intro data hd i _
        exact getD_eq_zero_of_allZero (ho data hd) i
      rw [hscan]
      simp
  rcases hres : computeLoudnessMetrics log10 p with ⟨a, b⟩
  rw [hres] at hlufs hpeak
  have ha : a = none := hlufs
  have hb : b = none := hpeak
  rw [ha, hb]

/-- With well-formed channel lengths, the metrics' peak is `null` iff
every original sample is zero. -/
theorem peakDb_none_iff (log10 : ℚ → ℚ) (p : LoudnessWorkerPayload)
    (hWne : p.weightedChannels ≠ [])
    (hlen : ∀ data ∈ p.originalChannels, data.length = p.originalLength) :
    ((computeLoudnessMetrics log10 p).peakDb = none ↔
      allZeroChannels p.originalChannels) := by
  by_cases hOne : p.originalChannels = []
  · unfold computeLoudnessMetrics
    rw [if_pos (by simp [List.isEmpty_iff, hOne])]
    simp [allZeroChannels, hOne]
  · have hW : ¬(p.weightedChannels.isEmpty ∨ p.originalChannels.isEmpty) := by
      simp [List.isEmpty_iff, hWne, hOne]
    rw [peakDb_eq log10 p hW]
    have hchar : peakScan p.originalChannels p.originalLength = 0 ↔
        allZeroChannels p.originalChannels := by
      rw [peakScan_eq_zero_iff]
      constructor
      · intro h data hd x hx
        obtain ⟨i, hi, rfl⟩ := List.mem_iff_getElem.mp hx
        have hi' : i < p.originalLength := by rw [← hlen data hd]; exact hi
        have := h data hd i (List.mem_range.mpr hi')
        rw [List.getD_eq_getElem _ _ hi] at this
        exact this
      · intro h data hd i _
        exact getD_eq_zero_of_allZero (h data hd) i
    constructor
    · intro hnone
      by_cases hpos : 0 < peakScan p.originalChannels p.originalLength
      · rw [if_pos hpos] at hnone
        cases hnone
      · exact hchar.mp
          (le_antisymm (not_lt.mp hpos) (peakScan_nonneg _ _))
    · intro hz
      rw [if_neg (by rw [hchar.mpr hz]; exact lt_irrefl 0)]

/-! ### Binary rounding evaluation -/

/-- `roundHalfEven` at a value strictly below the halfway point rounds
down. -/
theorem roundHalfEven_eq_low (q : ℚ) (n : ℤ) (h1 : (n : ℚ) ≤ q)
    (h2 : q < n + 1 / 2) : roundHalfEven q = n := by
  have hf : ⌊q⌋ = n := by
    rw [Int.floor_eq_iff]
    exact ⟨h1, by linarith⟩
  unfold roundHalfEven
  rw [hf, if_pos (by linarith)]

/-- `roundHalfEven` at a value strictly above the halfway point rounds
up. -/
theorem roundHalfEven_eq_high (q : ℚ) (n : ℤ) (h1 : (n : ℚ) + 1 / 2 < q)
    (h2 : q < n + 1) : roundHalfEven q = n + 1 := by
  have hf : ⌊q⌋ = n := by
    rw [Int.floor_eq_iff]
    exact ⟨by linarith, by linarith⟩
  unfold roundHalfEven
  rw [hf, if_neg (by linarith), if_pos (by linarith)]

/-- Evaluate `binExp` for a value at least `1` from a floor bracket. -/
theorem binExp_eval_ge_one (q : ℚ) (n k : ℕ) (hq : 1 ≤ q)
    (h1 : (n : ℚ) ≤ q) (h2 : q < n + 1) (hlog : Nat.log2 n = k) :
    binExp q = (k : ℤ) := by
  have hf : ⌊q⌋ = (n : ℤ) := by
    rw [Int.floor_eq_iff]
    exact ⟨by push_cast; linarith, by push_cast; linarith⟩
  unfold binExp
  rw [if_pos hq, hf, Int.toNat_natCast, hlog]

/-- Evaluate `binExp` for a value in `[1/2, 1)`. -/
theorem binExp_eval_half (q : ℚ) (hq : ¬ 1 ≤ q)
    (h1 : 1 ≤ 1 / q) (h2 : 1 / q < 2) (hne : 1 / q ≠ 1) :
    binExp q = -1 := by
  have hf : ⌊1 / q⌋ = 1 := by
    rw [Int.floor_eq_iff]
    exact ⟨by push_cast; linarith, by push_cast; linarith⟩
  have hne' : q ≠ 1 := by
    intro h
    rw [h] at hne
    exact hne (by norm_num)
  unfold binExp
  rw [if_neg hq, hf]
  norm_num [Nat.log2, hne, hne']

/-- Evaluate `roundFloat` on a positive value from its exponent and
rounded significand. -/
theorem roundFloat_eval_pos (prec : ℕ) (q : ℚ) (e m : ℤ)
    (hq0 : 0 < q) (hbe : binExp q = e)
    (hm : roundHalfEven (q * 2 ^ ((prec : ℤ) - 1 - e)) = m) :
    roundFloat prec q = (m : ℚ) * 2 ^ (e - ((prec : ℤ) - 1)) := by
  unfold roundFloat
  rw [if_neg (ne_of_gt hq0), if_neg (not_lt.mpr hq0.le), abs_of_pos hq0,
    hbe, hm]

/-- `roundFloat` is odd. -/
theorem roundFloat_eval_neg (prec : ℕ) (q : ℚ) (hq0 : 0 < q) :
    roundFloat prec (-q) = -roundFloat prec q := by
  unfold roundFloat
  rw [if_neg (neg_ne_zero.mpr (ne_of_gt hq0)), if_pos (neg_lt_zero.mpr hq0),
    abs_neg, if_neg (ne_of_gt hq0), if_neg (not_lt.mpr hq0.le)]

/-- The stored binary32 value of the head feedforward coefficient
`1.53512485958697`. -/
theorem stored_head_ff0 :
    toFloat32 (toFloat64 (1.53512485958697 : ℚ)) = 12877561 / 8388608 := by
  have h64 : toFloat64 (1.53512485958697 : ℚ) =
      (6913587745603063 : ℚ) / 4503599627370496 := by
    unfold toFloat64
    rw [roundFloat_eval_pos 53 _ 0 6913587745603063 (by norm_num)
      (binExp_eval_ge_one _ 1 0 (by norm_num) (by norm_num) (by norm_num)
        (by norm_num [Nat.log2]))
      (roundHalfEven_eq_low _ 6913587745603063 (by norm_num) (by norm_num))]
    norm_num
  rw [h64]
  unfold toFloat32
  rw [roundFloat_eval_pos 24 _ 0 12877561 (by norm_num)
    (binExp_eval_ge_one _ 1 0 (by norm_num) (by norm_num) (by norm_num)
      (by norm_num [Nat.log2]))
    (roundHalfEven_eq_high _ 12877560 (by norm_num) (by norm_num))]
  norm_num

/-- `toFloat64` negation. -/
theorem toFloat64_neg (q : ℚ) (hq : 0 < q) : toFloat64 (-q) = -toFloat64 q :=
  roundFloat_eval_neg 53 q hq

/-- `toFloat32` negation. -/
theorem toFloat32_neg (q : ℚ) (hq : 0 < q) : toFloat32 (-q) = -toFloat32 q :=
  roundFloat_eval_neg 24 q hq

/-- `1` is exact in binary64. -/
theorem t64_one : toFloat64 (1 : ℚ) = 1 := by
  unfold toFloat64
  rw [roundFloat_eval_pos 53 _ 0 4503599627370496 (by norm_num)
    (binExp_eval_ge_one _ 1 0 (by norm_num) (by norm_num) (by norm_num)
      (by norm_num [Nat.log2]))
    (roundHalfEven_eq_low _ 4503599627370496 (by norm_num) (by norm_num))]
  norm_num

/-- `1` is exact in binary32. -/
theorem t32_one : toFloat32 (1 : ℚ) = 1 := by
  unfold toFloat32
  rw [roundFloat_eval_pos 24 _ 0 8388608 (by norm_num)
    (binExp_eval_ge_one _ 1 0 (by norm_num) (by norm_num) (by norm_num)
      (by norm_num [Nat.log2]))
    (roundHalfEven_eq_low _ 8388608 (by norm_num) (by norm_num))]
  norm_num

/-- `2` is exact in binary64. -/
theorem t64_two : toFloat64 (2 : ℚ) = 2 := by
  unfold toFloat64
  rw [roundFloat_eval_pos 53 _ 1 4503599627370496 (by norm_num)
    (binExp_eval_ge_one _ 2 1 (by norm_num) (by norm_num) (by norm_num)
      (by norm_num [Nat.log2]))
    (roundHalfEven_eq_low _ 4503599627370496 (by norm_num) (by norm_num))]
  norm_num

/-- `2` is exact in binary32. -/
theorem t32_two : toFloat32 (2 : ℚ) = 2 := by
  unfold toFloat32
  rw [roundFloat_eval_pos 24 _ 1 8388608 (by norm_num)
    (binExp_eval_ge_one _ 2 1 (by norm_num) (by norm_num) (by norm_num)
      (by norm_num [Nat.log2]))
    (roundHalfEven_eq_low _ 8388608 (by norm_num) (by norm_num))]
  norm_num

/-- Binary64 value of the literal `2.69169618940638`. -/
theorem t64_c2 : toFloat64 (2.69169618940638 : ℚ) =
    (3030580488901289 : ℚ) / 1125899906842624 := by
  unfold toFloat64
  rw [roundFloat_eval_pos 53 _ 1 6061160977802578 (by norm_num)
    (binExp_eval_ge_one _ 2 1 (by norm_num) (by norm_num) (by norm_num)
      (by norm_num [Nat.log2]))
    (roundHalfEven_eq_low _ 6061160977802578 (by norm_num) (by norm_num))]
  norm_num

/-- Binary32 rounding of the binary64 value of `2.69169618940638`. -/
theorem t32_c2 : toFloat32 ((3030580488901289 : ℚ) / 1125899906842624) =
    176403 / 65536 := by
  unfold toFloat32
  rw [roundFloat_eval_pos 24 _ 1 11289792 (by norm_num)
    (binExp_eval_ge_one _ 2 1 (by norm_num) (by norm_num) (by norm_num)
      (by norm_num [Nat.log2]))
    (roundHalfEven_eq_low _ 11289792 (by norm_num) (by norm_num))]
  norm_num

/-- Binary64 value of the literal `1.19839281085285`. -/
theorem t64_c3 : toFloat64 (1.19839281085285 : ℚ) =
    (5397081416400377 : ℚ) / 4503599627370496 := by
  unfold toFloat64
  rw [roundFloat_eval_pos 53 _ 0 (5397081416400376 + 1) (by norm_num)
    (binExp_eval_ge_one _ 1 0 (by norm_num) (by norm_num) (by norm_num)
      (by norm_num [Nat.log2]))
    (roundHalfEven_eq_high _ 5397081416400376 (by norm_num) (by norm_num))]
  norm_num

/-- Binary32 rounding of the binary64 value of `1.19839281085285`. -/
theorem t32_c3 : toFloat32 ((5397081416400377 : ℚ) / 4503599627370496) =
    628303 / 524288 := by
  unfold toFloat32
  rw [roundFloat_eval_pos 24 _ 0 (10052847 + 1) (by norm_num)
    (binExp_eval_ge_one _ 1 0 (by norm_num) (by norm_num) (by norm_num)
      (by norm_num [Nat.log2]))
    (roundHalfEven_eq_high _ 10052847 (by norm_num) (by norm_num))]
  norm_num

/-- Binary64 value of the literal `1.69065929318241`. -/
theorem t64_c4 : toFloat64 (1.69065929318241 : ℚ) =
    (475878285174173 : ℚ) / 281474976710656 := by
  unfold toFloat64
  rw [roundFloat_eval_pos 53 _ 0 (7614052562786767 + 1) (by norm_num)
    (binExp_eval_ge_one _ 1 0 (by norm_num) (by norm_num) (by norm_num)
      (by norm_num [Nat.log2]))
    (roundHalfEven_eq_high _ 7614052562786767 (by norm_num) (by norm_num))]
  norm_num

/-- Binary32 rounding of the binary64 value of `1.69065929318241`. -/
theorem t32_c4 : toFloat32 ((475878285174173 : ℚ) / 281474976710656) =
    7091139 / 4194304 := by
  unfold toFloat32
  rw [roundFloat_eval_pos 24 _ 0 14182278 (by norm_num)
    (binExp_eval_ge_one _ 1 0 (by norm_num) (by norm_num) (by norm_num)
      (by norm_num [Nat.log2]))
    (roundHalfEven_eq_low _ 14182278 (by norm_num) (by norm_num))]
  norm_num

/-- Binary64 value of the literal `0.73248077421585`. -/
theorem t64_c5 : toFloat64 (0.73248077421585 : ℚ) =
    (6597600283629109 : ℚ) / 9007199254740992 := by
  unfold toFloat64
  rw [roundFloat_eval_pos 53 _ (-1) (6597600283629108 + 1) (by norm_num)
    (binExp_eval_half _ (by norm_num) (by norm_num) (by norm_num) (by norm_num))
    (roundHalfEven_eq_high _ 6597600283629108 (by norm_num) (by norm_num))]
  norm_num

/-- Binary32 rounding of the binary64 value of `0.73248077421585`. -/
theorem t32_c5 : toFloat32 ((6597600283629109 : ℚ) / 9007199254740992) =
    3072247 / 4194304 := by
  unfold toFloat32
  rw [roundFloat_eval_pos 24 _ (-1) 12288988 (by norm_num)
    (binExp_eval_half _ (by norm_num) (by norm_num) (by norm_num) (by norm_num))
    (roundHalfEven_eq_low _ 12288988 (by norm_num) (by norm_num))]
  norm_num

/-- Binary64 value of the literal `1.99004745483398`. -/
theorem t64_c6 : toFloat64 (1.99004745483398 : ℚ) =
    (2240594244009979 : ℚ) / 1125899906842624 := by
  unfold toFloat64
  rw [roundFloat_eval_pos 53 _ 0 8962376976039916 (by norm_num)
    (binExp_eval_ge_one _ 1 0 (by norm_num) (by norm_num) (by norm_num)
      (by norm_num [Nat.log2]))
    (roundHalfEven_eq_low _ 8962376976039916 (by norm_num) (by norm_num))]
  norm_num

/-- Binary32 rounding of the binary64 value of `1.99004745483398`. -/
theorem t32_c6 : toFloat32 ((2240594244009979 : ℚ) / 1125899906842624) =
    521679 / 262144 := by
  unfold toFloat32
  rw [roundFloat_eval_pos 24 _ 0 (16693727 + 1) (by norm_num)
    (binExp_eval_ge_one _ 1 0 (by norm_num) (by norm_num) (by norm_num)
      (by norm_num [Nat.log2]))
    (roundHalfEven_eq_high _ 16693727 (by norm_num) (by norm_num))]
  norm_num

/-- Binary64 value of the literal `0.99007225036621`. -/
theorem t64_c7 : toFloat64 (0.99007225036621 : ℚ) =
    (1114722254454783 : ℚ) / 1125899906842624 := by
  unfold toFloat64
  rw [roundFloat_eval_pos 53 _ (-1) (8917778035638263 + 1) (by norm_num)
    (binExp_eval_half _ (by norm_num) (by norm_num) (by norm_num) (by norm_num))
    (roundHalfEven_eq_high _ 8917778035638263 (by norm_num) (by norm_num))]
  norm_num

/-- Binary32 rounding of the binary64 value of `0.99007225036621`. -/
theorem t32_c7 : toFloat32 ((1114722254454783 : ℚ) / 1125899906842624) =
    519083 / 524288 := by
  unfold toFloat32
  rw [roundFloat_eval_pos 24 _ (-1) (16610655 + 1) (by norm_num)
    (binExp_eval_half _ (by norm_num) (by norm_num) (by norm_num) (by norm_num))
    (roundHalfEven_eq_high _ 16610655 (by norm_num) (by norm_num))]
  norm_num

/-- The head feedforward `Float32Array` as stored. -/
theorem HEAD_FILTER_FEEDFORWARD_eval :
    HEAD_FILTER_FEEDFORWARD =
      [12877561 / 8388608, -(176403 / 65536), 628303 / 524288] := by
  unfold HEAD_FILTER_FEEDFORWARD float32Store
  simp only [List.map_cons, List.map_nil]
  rw [stored_head_ff0, toFloat64_neg 2.69169618940638 (by norm_num), t64_c2,
    toFloat32_neg _ (by norm_num), t32_c2, t64_c3, t32_c3]

/-- The head feedback `Float32Array` as stored. -/
theorem HEAD_FILTER_FEEDBACK_eval :
    HEAD_FILTER_FEEDBACK = [1, -(7091139 / 4194304), 3072247 / 4194304] := by
  unfold HEAD_FILTER_FEEDBACK float32Store
  simp only [List.map_cons, List.map_nil]
  rw [t64_one, t32_one, toFloat64_neg 1.69065929318241 (by norm_num), t64_c4,
    toFloat32_neg _ (by norm_num), t32_c4, t64_c5, t32_c5]

/-- The RLB feedforward `Float32Array` as stored: `[1, -2, 1]` is
dyadic, hence exact. -/
theorem RLB_FILTER_FEEDFORWARD_eval :
    RLB_FILTER_FEEDFORWARD = [1, -2, 1] := by
  unfold RLB_FILTER_FEEDFORWARD float32Store
  simp only [List.map_cons, List.map_nil]
  rw [t64_one, t32_one, toFloat64_neg 2 (by norm_num), t64_two,
    toFloat32_neg 2 (by norm_num), t32_two]

/-- The RLB feedback `Float32Array` as stored. -/
theorem RLB_FILTER_FEEDBACK_eval :
    RLB_FILTER_FEEDBACK = [1, -(521679 / 262144), 519083 / 524288] := by
  unfold RLB_FILTER_FEEDBACK float32Store
  simp only [List.map_cons, List.map_nil]
  rw [t64_one, t32_one, toFloat64_neg 1.99004745483398 (by norm_num), t64_c6,
    toFloat32_neg _ (by norm_num), t32_c6, t64_c7, t32_c7]

/-! ### Claims -/

/-- C1: for every payload (with the positive block and step sizes the
call site guarantees), `computeLoudnessMetrics` computes block energies
per the spec's reference algorithm: block starts are the multiples of
`stepSize` below `totalSamples`; each block's mean square is the
channel-weight-weighted sum of per-channel mean squares over
`min(blockSize, remaining)` samples, with instantaneous loudness
`lufsOffset + 10·log10(meanSquare)` and `meanSquare ≤ 0` mapped to
`-∞`; the absolute gate keeps blocks strictly above `absoluteGate`; the
preliminary loudness is `lufsOffset + 10·log10` of the mean of the kept
mean squares; and the relative gate keeps absolutely gated blocks with
loudness at least the preliminary loudness minus `relativeGateOffset`. -/
theorem claim_C1 (log10 : ℚ → ℚ) (p : LoudnessWorkerPayload)
    (hs : 0 < p.stepSize) (hb : 0 < p.blockSize) :
    codeBlocks log10 p = specBlocks log10 p ∧
    gatedBlocks log10 p = specAbsGated log10 p ∧
    (gatedBlocks log10 p ≠ [] →
      preliminaryLoudness log10 p = some (specPreliminary log10 p) ∧
      relGatedBlocks log10 p = specRelGated log10 p) := by
  refine ⟨codeBlocks_eq_specBlocks log10 p hs hb,
    gatedBlocks_eq_specAbsGated log10 p hs hb, fun hne => ⟨?_,
      relGatedBlocks_eq_specRelGated log10 p hs hb hne⟩⟩
  rw [preliminaryLoudness_eq log10 p hne,
    gatedBlocks_eq_specAbsGated log10 p hs hb]
  rfl

/-- Witness for C1 at a concrete payload. -/
theorem claim_C1_witness :
    0 < unitPayload.stepSize ∧ 0 < unitPayload.blockSize ∧
    (codeBlocks log10one unitPayload = specBlocks log10one unitPayload ∧
      gatedBlocks log10one unitPayload = specAbsGated log10one unitPayload ∧
      (gatedBlocks log10one unitPayload ≠ [] →
        preliminaryLoudness log10one unitPayload =
          some (specPreliminary log10one unitPayload) ∧
        relGatedBlocks log10one unitPayload =
          specRelGated log10one unitPayload)) :=
  ⟨by decide, by decide, claim_C1 log10one unitPayload (by decide) (by decide)⟩

/-- C2 counterexample: a payload with a non-empty absolute-gated block
set and an empty relative-gated set on which `computeLoudnessMetrics`
still returns `lufsIntegrated = null`, because its original channel list
is empty and the function returns early.  (`log10one` agrees with the
real `Math.log10` at `1`, the only point used.) -/
theorem claim_C2_counterexample :
    gatedBlocks log10one noOriginalPayload ≠ [] ∧
    relGatedBlocks log10one noOriginalPayload = [] ∧
    (computeLoudnessMetrics log10one noOriginalPayload).lufsIntegrated =
      none := by
  have h1 : blockStarts 1 1 = [0] := by decide
  refine ⟨?_, ?_, ?_⟩
  · simp [gatedBlocks, codeBlocks, noOriginalPayload, relGateEmptyPayload, h1,
      blockMeanSquare, channelEnergy, toLUFS, lufsGtB, log10one,
      List.range_succ, List.getD, List.getElem?_cons_zero]
    norm_num
  · simp [relGatedBlocks, preliminaryLoudness, integrateBlocks, gatedBlocks,
      codeBlocks, noOriginalPayload, relGateEmptyPayload, h1, blockMeanSquare,
      channelEnergy, toLUFS, lufsGtB, lufsGeB, log10one, List.range_succ,
      List.getD, List.getElem?_cons_zero]
    norm_num
  · simp [computeLoudnessMetrics, noOriginalPayload, relGateEmptyPayload]

/-- C2 (amended): for every payload whose original channel list is
non-empty, whose absolute-gated block set is non-empty and whose
relative gate removes every block, `computeLoudnessMetrics` returns the
absolute-gated average, not `null`. -/
theorem claim_C2 (log10 : ℚ → ℚ) (p : LoudnessWorkerPayload)
    (hO : p.originalChannels ≠ []) (hG : gatedBlocks log10 p ≠ [])
    (hR : relGatedBlocks log10 p = []) :
    (computeLoudnessMetrics log10 p).lufsIntegrated =
      some (p.lufsOffset +
        10 * log10 (((gatedBlocks log10 p).map (·.1)).sum /
          (((gatedBlocks log10 p).map (·.1)).length : ℚ))) :=
  computeLoudnessMetrics_relGate_empty log10 p hO hG hR

/-- Witness for C2 at a concrete payload whose single block passes the
absolute gate but not the relative gate. -/
theorem claim_C2_witness :
    relGateEmptyPayload.originalChannels ≠ [] ∧
    gatedBlocks log10one relGateEmptyPayload ≠ [] ∧
    relGatedBlocks log10one relGateEmptyPayload = [] ∧
    (computeLoudnessMetrics log10one relGateEmptyPayload).lufsIntegrated =
      some (relGateEmptyPayload.lufsOffset +
        10 * log10one (((gatedBlocks log10one relGateEmptyPayload).map (·.1)).sum /
          (((gatedBlocks log10one relGateEmptyPayload).map (·.1)).length : ℚ))) := by
  have h1 : blockStarts 1 1 = [0] := by decide
  have h2 : relGateEmptyPayload.originalChannels ≠ [] := by
    simp [relGateEmptyPayload]
  have h3 : gatedBlocks log10one relGateEmptyPayload ≠ [] := by
    simp [gatedBlocks, codeBlocks, relGateEmptyPayload, h1, blockMeanSquare,
      channelEnergy, toLUFS, lufsGtB, log10one, List.range_succ, List.getD,
      List.getElem?_cons_zero]
    norm_num
  have h4 : relGatedBlocks log10one relGateEmptyPayload = [] := by
    simp [relGatedBlocks, preliminaryLoudness, integrateBlocks, gatedBlocks,
      codeBlocks, relGateEmptyPayload, h1, blockMeanSquare, channelEnergy,
      toLUFS, lufsGtB, lufsGeB, log10one, List.range_succ, List.getD,
      List.getElem?_cons_zero]
    norm_num
  exact ⟨h2, h3, h4, claim_C2 log10one relGateEmptyPayload h2 h3 h4⟩

/-- C3: the claim describes the specification's per-call-error
isolation, but the code does not implement it.  `handleWorkerMessage`
rejects the matching pending request, and the `await` inside
`analyzeWithWorker` — the claim's own cited lines — then catches that
very rejection and runs `rejectAllPending` plus `teardownWorker`.  At
the failing input (worker alive, requests 7 and 8 pending, response
`{type:"error", id:7, error:"boom"}`) the code also rejects request 8
with "boom" and tears the worker down, where the claim says only
request 7 is rejected and the boundary remains usable. -/
theorem claim_C3 :
    (perCallErrorFlow (OffloadState.mk true [7, 8] 9) 7 "boom").2 =
      [WorkerEffect.rejected 7 "boom", WorkerEffect.rejected 8 "boom"] ∧
    (perCallErrorFlow (OffloadState.mk true [7, 8] 9) 7 "boom").1.workerAlive =
      false ∧
    (perCallErrorFlow (OffloadState.mk true [7, 8] 9) 7 "boom").1.pending =
      [] := by
  refine ⟨?_, rfl, rfl⟩
  rfl

/-- C4: the worker-side `handleAnalyze` on the serialized, transferred
payload produces exactly the metrics of the direct in-process
`computeLoudnessMetrics` on the same payload — the serialization round
trip is the identity, so `lufsIntegrated` and `peakDb` agree
bit-for-bit. -/
theorem claim_C4 (log10 : ℚ → ℚ) (p : LoudnessWorkerPayload) (id : ℕ) :
    handleAnalyze log10 id (serializeForWorker p) =
      .result id (computeLoudnessMetrics log10 p) ∧
    deserializePayload (serializeForWorker p) = p :=
  ⟨rfl, rfl⟩

/-- C8: if no block's instantaneous loudness is strictly above the
absolute gate, the integrated loudness is `null`; and an all-zero input
yields `⟨null, null⟩`. -/
theorem claim_C8 (log10 : ℚ → ℚ) (p : LoudnessWorkerPayload) :
    ((∀ b ∈ codeBlocks log10 p, lufsGtB b.2 p.absoluteGate = false) →
      (computeLoudnessMetrics log10 p).lufsIntegrated = none) ∧
    (allZeroChannels p.weightedChannels → allZeroChannels p.originalChannels →
      computeLoudnessMetrics log10 p = ⟨none, none⟩) :=
  ⟨lufsIntegrated_none_of_no_gate log10 p,
    computeLoudnessMetrics_allZero log10 p⟩

/-- Witness for C8 at the silent payload. -/
theorem claim_C8_witness :
    allZeroChannels silentPayload.weightedChannels ∧
    allZeroChannels silentPayload.originalChannels ∧
    computeLoudnessMetrics log10one silentPayload = ⟨none, none⟩ := by
  have hw : allZeroChannels silentPayload.weightedChannels := by
    intro data hd x hx
    simp only [silentPayload] at hd
    simp only [List.mem_singleton] at hd
    subst hd
    simpa using hx
  have ho : allZeroChannels silentPayload.originalChannels := by
    intro data hd x hx
    simp only [silentPayload] at hd
    simp only [List.mem_singleton] at hd
    subst hd
    simpa using hx
  exact ⟨hw, ho, (claim_C8 log10one silentPayload).2 hw ho⟩

/-- C9: the claim matches the spec's demand — and the IIR branch of
`applyKWeighting` does wire exactly the four coefficient arrays — but
the code stores the coefficients in `Float32Array`s, and binary32 has no
exact representation of the seven non-dyadic decimals: the stored head
feedforward constant is `12877561/2^23 = 1.5351248979568481`, not
`1.53512485958697`, and every coefficient list except `[1, -2, 1]`
differs from its listed decimals, so `createIIRFilter` receives
approximated values where the spec demands the canonical ones exactly,
not approximated. -/
theorem claim_C9 :
    kWeightingGraph true = FilterGraph.iirCascade HEAD_FILTER_FEEDFORWARD
      HEAD_FILTER_FEEDBACK RLB_FILTER_FEEDFORWARD RLB_FILTER_FEEDBACK ∧
    HEAD_FILTER_FEEDFORWARD.getD 0 0 = 12877561 / 8388608 ∧
    (12877561 / 8388608 : ℚ) ≠ 1.53512485958697 ∧
    HEAD_FILTER_FEEDFORWARD ≠
      [1.53512485958697, -2.69169618940638, 1.19839281085285] ∧
    HEAD_FILTER_FEEDBACK ≠ [1, -1.69065929318241, 0.73248077421585] ∧
    RLB_FILTER_FEEDBACK ≠ [1, -1.99004745483398, 0.99007225036621] ∧
    RLB_FILTER_FEEDFORWARD = [1, -2, 1] := by
  refine ⟨rfl, ?_, by norm_num, ?_, ?_, ?_, RLB_FILTER_FEEDFORWARD_eval⟩
  · rw [HEAD_FILTER_FEEDFORWARD_eval]
    rfl
  · rw [HEAD_FILTER_FEEDFORWARD_eval]
    intro h
    simp only [List.cons.injEq] at h
    exact absurd h.1 (by norm_num)
  · rw [HEAD_FILTER_FEEDBACK_eval]
    intro h
    simp only [List.cons.injEq] at h
    exact absurd h.2.1 (by norm_num)
  · rw [RLB_FILTER_FEEDBACK_eval]
    intro h
    simp only [List.cons.injEq] at h
    exact absurd h.2.1 (by norm_num)

/-- C10: `computeLoudnessMetrics` is total on payloads (with the
positive step the call site guarantees, which is what makes the source's
loop terminate), and out-of-range sample reads behave as `0` while
missing channel weights behave as `1`: padding every channel with zeros
and the weight list with ones changes nothing. -/
theorem claim_C10 (log10 : ℚ → ℚ) (p : LoudnessWorkerPayload) (k : ℕ)
    (_hs : 0 < p.stepSize) :
    computeLoudnessMetrics log10 (padPayload p k) =
      computeLoudnessMetrics log10 p :=
  computeLoudnessMetrics_pad log10 p k

/-- Witness for C10 at a concrete payload and padding amount. -/
theorem claim_C10_witness :
    0 < unitPayload.stepSize ∧
    computeLoudnessMetrics log10one (padPayload unitPayload 3) =
      computeLoudnessMetrics log10one unitPayload :=
  ⟨by decide, claim_C10 log10one unitPayload 3 (by decide)⟩

/-- C5 counterexample: on `{A: -Infinity, B: -14}` with capDb 12, the
`loudnessMatch.ts` calculator does not filter the non-finite value: the
target collapses to `-Infinity`, track A gets `NaN` and track B gets the
cap `12`, where the claim demands offset `0` for both (A is invalid, B
is the quietest valid track). -/
theorem claim_C5_counterexample :
    computeLoudnessOffsets
        [("A", some JSNum.negInf), ("B", some (JSNum.fin (-14)))] 12 =
      [("A", JSNum.nan), ("B", JSNum.fin 12)] ∧
    offsetsSpec [("A", some JSNum.negInf), ("B", some (JSNum.fin (-14)))] 12 =
      [("A", JSNum.fin 0), ("B", JSNum.fin 0)] ∧
    computeLoudnessOffsets
        [("A", some JSNum.negInf), ("B", some (JSNum.fin (-14)))] 12 ≠
      offsetsSpec [("A", some JSNum.negInf), ("B", some (JSNum.fin (-14)))] 12 := by
  refine ⟨by decide, ?_, ?_⟩
  · simp [offsetsSpec, validLoudnessValues]
  · intro h
    have h2 : offsetsSpec
        [("A", some JSNum.negInf), ("B", some (JSNum.fin (-14)))] 12 =
        [("A", JSNum.fin 0), ("B", JSNum.fin 0)] := by
      simp [offsetsSpec, validLoudnessValues]
    rw [h2] at h
    exact absurd h (by decide)

/-- C5 (amended): the refined duplicate `computeLoudnessOffsetsF`
satisfies the claimed offset function on every input, and the
`loudnessMatch.ts` `computeLoudnessOffsets` satisfies it on every input
whose non-null loudness values are all finite; `offsetToGain` is exactly
`10^(−offsetDb/20)`; and `{A: -14, B: -20}` with capDb 12 yields
`{A: 6, B: 0}` under both implementations. -/
theorem claim_C5 :
    (∀ (l : List (String × Option JSNum)) (capDb : ℚ),
      computeLoudnessOffsetsF l capDb = offsetsSpec l capDb) ∧
    (∀ (l : List (String × Option JSNum)) (capDb : ℚ), allFiniteOrNull l →
      computeLoudnessOffsets l capDb = offsetsSpec l capDb) ∧
    (∀ x : ℝ, offsetToGain x = (10 : ℝ) ^ (-x / 20)) ∧
    computeLoudnessOffsets
        [("A", some (JSNum.fin (-14))), ("B", some (JSNum.fin (-20)))] 12 =
      [("A", JSNum.fin 6), ("B", JSNum.fin 0)] ∧
    computeLoudnessOffsetsF
        [("A", some (JSNum.fin (-14))), ("B", some (JSNum.fin (-20)))] 12 =
      [("A", JSNum.fin 6), ("B", JSNum.fin 0)] := by
  have hF : ∀ (l : List (String × Option JSNum)) (capDb : ℚ),
      computeLoudnessOffsetsF l capDb = offsetsSpec l capDb :=
    offsetsF_eq_offsetsSpec
  have hLib : ∀ (l : List (String × Option JSNum)) (capDb : ℚ),
      allFiniteOrNull l → computeLoudnessOffsets l capDb = offsetsSpec l capDb :=
    fun l capDb h => (computeLoudnessOffsets_eq_F l capDb h).trans (hF l capDb)
  have hEx : computeLoudnessOffsetsF
      [("A", some (JSNum.fin (-14))), ("B", some (JSNum.fin (-20)))] 12 =
      [("A", JSNum.fin 6), ("B", JSNum.fin 0)] := by
    rw [hF]
    simp [offsetsSpec, validLoudnessValues]
    norm_num
  have hfin : allFiniteOrNull
      [("A", some (JSNum.fin (-14))), ("B", some (JSNum.fin (-20)))] := by
    intro p hp v hv
    rcases List.mem_cons.mp hp with rfl | hp2
    · cases hv; rfl
    · rcases List.mem_cons.mp hp2 with rfl | hp3
      · cases hv; rfl
      · cases hp3
  refine ⟨hF, hLib, fun x => rfl, ?_, hEx⟩
  rw [hLib _ _ hfin, ← hF, hEx]

/-- Witness for C5's conditional clause at a concrete all-finite map. -/
theorem claim_C5_witness :
    allFiniteOrNull [("A", some (JSNum.fin (-5)))] ∧
    computeLoudnessOffsets [("A", some (JSNum.fin (-5)))] 12 =
      offsetsSpec [("A", some (JSNum.fin (-5)))] 12 := by
  have hfin : allFiniteOrNull [("A", some (JSNum.fin (-5)))] := by
    intro p hp v hv
    rcases List.mem_cons.mp hp with rfl | hp2
    · cases hv; rfl
    · cases hp2
  exact ⟨hfin, claim_C5.2.1 _ 12 hfin⟩

/-- C6 counterexample: on `{A: -Infinity, B: -14}` with capDb 12, the
`loudnessMatch.ts` calculator maps B — the quietest (indeed only) track
with a valid finite loudness — to 12 instead of 0; and with a negative
capDb even the refined calculator leaves `[0, capDb]` (which is empty)
and maps the quietest track to capDb rather than 0. -/
theorem claim_C6_counterexample :
    ("B", JSNum.fin 12) ∈ computeLoudnessOffsets
      [("A", some JSNum.negInf), ("B", some (JSNum.fin (-14)))] 12 ∧
    ("B", JSNum.fin 0) ∉ computeLoudnessOffsets
      [("A", some JSNum.negInf), ("B", some (JSNum.fin (-14)))] 12 ∧
    validLoudnessValues
      [("A", some JSNum.negInf), ("B", some (JSNum.fin (-14)))] = [-14] ∧
    computeLoudnessOffsetsF [("A", some (JSNum.fin (-14)))] (-1) =
      [("A", JSNum.fin (-1))] := by
  refine ⟨by decide, by decide, by decide, ?_⟩
  rw [offsetsF_eq_offsetsSpec]
  simp [offsetsSpec, validLoudnessValues]

/-- C6 (amended): with a non-negative cap, the refined calculator's
offset map always satisfies the OffsetMap invariant — the quietest valid
track maps to exactly 0 and every entry is a finite value in
`[0, capDb]` — and the `loudnessMatch.ts` calculator satisfies it on
maps whose non-null values are all finite. -/
theorem claim_C6 (l : List (String × Option JSNum)) (capDb : ℚ)
    (hc : 0 ≤ capDb) :
    (∀ kv ∈ computeLoudnessOffsetsF l capDb,
      ∃ q, kv.2 = JSNum.fin q ∧ 0 ≤ q ∧ q ≤ capDb) ∧
    (∀ (k : String) (q : ℚ), (k, some (JSNum.fin q)) ∈ l →
      (∀ x ∈ validLoudnessValues l, q ≤ x) →
      (k, JSNum.fin 0) ∈ computeLoudnessOffsetsF l capDb) ∧
    (allFiniteOrNull l →
      (∀ kv ∈ computeLoudnessOffsets l capDb,
        ∃ q, kv.2 = JSNum.fin q ∧ 0 ≤ q ∧ q ≤ capDb) ∧
      (∀ (k : String) (q : ℚ), (k, some (JSNum.fin q)) ∈ l →
        (∀ x ∈ validLoudnessValues l, q ≤ x) →
        (k, JSNum.fin 0) ∈ computeLoudnessOffsets l capDb)) := by
  have hFs := offsetsF_eq_offsetsSpec l capDb
  refine ⟨?_, ?_, ?_⟩
  · rw [hFs]
    exact offsetsSpec_entries_range l capDb hc
  · intro k q hin hmin
    rw [hFs]
    exact offsetsSpec_quietest l capDb hc k q hin hmin
  · intro hall
    have hLs := (computeLoudnessOffsets_eq_F l capDb hall).trans hFs
    refine ⟨?_, ?_⟩
    · rw [hLs]
      exact offsetsSpec_entries_range l capDb hc
    · intro k q hin hmin
      rw [hLs]
      exact offsetsSpec_quietest l capDb hc k q hin hmin

/-- Witness for C6 at a concrete map and cap. -/
theorem claim_C6_witness :
    (0 : ℚ) ≤ 12 ∧
    ("B", some (JSNum.fin (-20))) ∈
      [("A", some (JSNum.fin (-14))), ("B", some (JSNum.fin (-20)))] ∧
    (∀ x ∈ validLoudnessValues
      [("A", some (JSNum.fin (-14))), ("B", some (JSNum.fin (-20)))],
      -20 ≤ x) ∧
    ("B", JSNum.fin 0) ∈ computeLoudnessOffsetsF
      [("A", some (JSNum.fin (-14))), ("B", some (JSNum.fin (-20)))] 12 := by
  have h1 : (0 : ℚ) ≤ 12 := by norm_num
  have h2 : ("B", some (JSNum.fin (-20))) ∈
      [("A", some (JSNum.fin (-14))), ("B", some (JSNum.fin (-20)))] := by
    simp
  have h3 : ∀ x ∈ validLoudnessValues
      [("A", some (JSNum.fin (-14))), ("B", some (JSNum.fin (-20)))],
      -20 ≤ x := by
    intro x hx
    simp [validLoudnessValues] at hx
    rcases hx with rfl | rfl <;> norm_num
  exact ⟨h1, h2, h3,
    (claim_C6 [("A", some (JSNum.fin (-14))), ("B", some (JSNum.fin (-20)))]
      12 h1).2.1 "B" (-20) h2 h3⟩

/-- C7: both peak estimators clip their result to at most 0 dB, and the
result is `null` exactly when every scanned sample is zero — for
`computeSamplePeakDb` on an `AudioBuffer`'s channels, and for the
`computeLoudnessMetrics` scan on a payload with channels present and
well-formed channel lengths. -/
theorem claim_C7 (log10 : ℚ → ℚ) (channels : List (List ℚ))
    (p : LoudnessWorkerPayload) :
    (∀ d, computeSamplePeakDb log10 channels = some d → d ≤ 0) ∧
    (computeSamplePeakDb log10 channels = none ↔ allZeroChannels channels) ∧
    (∀ d, (computeLoudnessMetrics log10 p).peakDb = some d → d ≤ 0) ∧
    (p.weightedChannels ≠ [] →
      (∀ data ∈ p.originalChannels, data.length = p.originalLength) →
      ((computeLoudnessMetrics log10 p).peakDb = none ↔
        allZeroChannels p.originalChannels)) := by
  refine ⟨?_, ?_, ?_, peakDb_none_iff log10 p⟩
  · intro d hd
    unfold computeSamplePeakDb at hd
    by_cases hpos : 0 < channels.foldl
        (fun acc data => data.foldl (fun a x => max a |x|) acc) 0
    · rw [if_pos hpos] at hd
      injection hd with hd
      rw [← hd]
      exact min_le_right _ _
    · rw [if_neg hpos] at hd
      exact Option.noConfusion hd
  · unfold computeSamplePeakDb
    by_cases hpos : 0 < channels.foldl
        (fun acc data => data.foldl (fun a x => max a |x|) acc) 0
    · rw [if_pos hpos]
      constructor
      · intro h
        exact Option.noConfusion h
      · intro hz
        rw [(samplePeak_eq_zero_iff channels).mpr hz] at hpos
        exact absurd hpos (lt_irrefl 0)
    · rw [if_neg hpos]
      constructor
      · intro _
        exact (samplePeak_eq_zero_iff channels).mp
          (le_antisymm (not_lt.mp hpos) (samplePeak_nonneg channels))
      · intro _
        rfl
  · intro d hd
    by_cases hW : p.weightedChannels.isEmpty ∨ p.originalChannels.isEmpty
    · unfold computeLoudnessMetrics at hd
      rw [if_pos hW] at hd
      exact Option.noConfusion hd
    · rw [peakDb_eq log10 p hW] at hd
      by_cases hpos : 0 < peakScan p.originalChannels p.originalLength
      · rw [if_pos hpos] at hd
        injection hd with hd
        rw [← hd]
        exact min_le_right _ _
      · rw [if_neg hpos] at hd
        exact Option.noConfusion hd

/-- Witness for C7's conditional clause at a concrete payload. -/
theorem claim_C7_witness :
    unitPayload.weightedChannels ≠ [] ∧
    (∀ data ∈ unitPayload.originalChannels,
      data.length = unitPayload.originalLength) ∧
    ((computeLoudnessMetrics log10one unitPayload).peakDb = none ↔
      allZeroChannels unitPayload.originalChannels) := by
  have h1 : unitPayload.weightedChannels ≠ [] := by simp [unitPayload]
  have h2 : ∀ data ∈ unitPayload.originalChannels,
      data.length = unitPayload.originalLength := by
    intro data hd
    simp only [unitPayload, List.mem_singleton] at hd
    subst hd
    rfl
  exact ⟨h1, h2, (claim_C7 log10one [[1]] unitPayload).2.2.2 h1 h2⟩
